import Mathlib

/-!
Shallow embedding of the tela-client repository (src/tela), covering the parts
that the verified claims are about:

* `src/tela/_streaming.py` — the `Stream` / `AsyncStream` SSE consumers and the
  chunk data model (`ChatCompletionChunk`, `Choice`, `Delta`);
* `src/tela/_history.py` — `ConversationHistory` and `HistoryManager`;
* `src/tela/_client.py` — `Tela.get_conversation_context`, `Tela.send_message`
  and the credential checks of `Tela.__init__` / `AsyncTela.__init__`.

Modelling conventions:
* Python `str` values that get sliced or parsed are modelled as `List Char`
  (one element per character); strings that are only stored and compared are
  modelled as Lean `String`.
* JSON values (the result of `json.loads`, and the `Any`-typed metadata slots)
  are modelled by the inductive `JVal`.  `json.loads` itself (the text-level
  parser from the Python standard library) is kept abstract: every streaming
  definition and theorem is parameterised over a function
  `jsonLoads : List Char → Option JVal`, where `none` models
  `json.JSONDecodeError`.
* Mutable state is passed explicitly; calls to `datetime.utcnow()` and
  `uuid.uuid4()` become explicit arguments.
* Python exceptions become `Except`/`Option` results.
-/

namespace TelaClient

/-- A JSON value, as produced by `json.loads` (numbers collapsed to `Int`;
object entries keep insertion order, keys assumed unique as in a parsed
`dict`).  Strings are `List Char`, matching the character-sequence view of
Python `str`. -/
inductive JVal : Type
  | null : JVal
  | bool (b : Bool) : JVal
  | num (n : Int) : JVal
  | str (s : List Char) : JVal
  | arr (xs : List JVal) : JVal
  | obj (kvs : List (String × JVal)) : JVal

/-- Python truthiness of a decoded JSON value (`if value:`). -/
def jvalTruthy : JVal → Bool
  | .null => false
  | .bool b => b
  | .num n => n != 0
  | .str s => !s.isEmpty
  | .arr xs => !xs.isEmpty
  | .obj kvs => !kvs.isEmpty

/-- `d.get(key)` on a parsed JSON object (keys unique). -/
def jget (kvs : List (String × JVal)) (k : String) : Option JVal :=
  kvs.lookup k

/-- Python truthiness of an optional string (`if s:`): `None` and `""` are
falsy. -/
def optStrTruthy : Option String → Bool
  | none => false
  | some s => !s.isEmpty

/-- Python `s.startswith(p)` for `String`-modelled strings. -/
def strStartsWith (s p : String) : Bool :=
  p.toList.isPrefixOf s.toList

/-! ### `src/tela/_streaming.py`: chunk data model

`Delta.__init__`, `Choice.__init__`, `ChatCompletionChunk.__init__` each read
fields out of a keyword dict.  Constructing them from a non-object JSON value
raises `TypeError` (which `Stream.__next__` does *not* catch), modelled here by
`Option` results from the `ofData` functions. -/

/-- `Delta`: `role = data.get("role")`, `content = data.get("content")`,
`tool_calls`, `function_call`. -/
structure Delta where
  role : Option JVal
  content : Option JVal
  tool_calls : Option JVal
  function_call : Option JVal

/-- `Delta(**data)`: requires a dict argument. -/
def Delta.ofData : JVal → Option Delta
  | .obj kvs => some ⟨jget kvs "role", jget kvs "content",
      jget kvs "tool_calls", jget kvs "function_call"⟩
  | _ => none

/-- `Choice`: `index = data.get("index", 0)`, `delta = Delta(**data.get("delta", {}))`,
`finish_reason`, `logprobs`. -/
structure Choice where
  index : JVal
  delta : Delta
  finish_reason : Option JVal
  logprobs : Option JVal

/-- `Choice(**data)`: requires a dict argument; the nested `Delta` constructor
requires the `delta` entry (when present) to be a dict. -/
def Choice.ofData : JVal → Option Choice
  | .obj kvs => do
      let d ← Delta.ofData ((jget kvs "delta").getD (.obj []))
      pure ⟨(jget kvs "index").getD (.num 0), d,
        jget kvs "finish_reason", jget kvs "logprobs"⟩
  | _ => none

/-- `ChatCompletionChunk`: `id/object/created/model` via `data.get`, and
`choices = [Choice(**c) for c in data.get("choices", [])]`. -/
structure ChatCompletionChunk where
  id : Option JVal
  object : Option JVal
  created : Option JVal
  model : Option JVal
  choices : List Choice

/-- `ChatCompletionChunk(**data)`: requires a dict argument whose `choices`
entry (when present) is an array of dicts. -/
def ChatCompletionChunk.ofData : JVal → Option ChatCompletionChunk
  | .obj kvs => do
      let cs ← match jget kvs "choices" with
        | none => pure []
        | some (.arr xs) => xs.mapM Choice.ofData
        | some _ => none
      pure ⟨jget kvs "id", jget kvs "object", jget kvs "created",
        jget kvs "model", cs⟩
  | _ => none

/-- `Stream._extract_content` fused with its call sites: the method returns
`choices[0].delta.content` when that value is truthy and `""` otherwise, and
every caller immediately concatenates the result onto a `str` accumulator
(`self._accumulated_content += content` / `accumulated += content`), which
raises `TypeError` when a truthy non-string slipped through.  So:
`.ok s` = the extracted text (possibly empty), `.error ()` = the `TypeError`
that a truthy non-string content value causes at the concatenation. -/
def extract_content (chunk : ChatCompletionChunk) : Except Unit (List Char) :=
  match chunk.choices with
  | [] => .ok []
  | choice :: _ =>
    match choice.delta.content with
    | none => .ok []
    | some v =>
      if jvalTruthy v then
        match v with
        | .str s => .ok s
        | _ => .error ()
      else .ok []

/-! ### `src/tela/_streaming.py`: the `Stream` / `AsyncStream` state machines

Driving `Stream.__next__` (respectively `AsyncStream.__anext__`) until the
iteration ends is modelled by a single recursion over the list of lines that
`response.iter_lines()` yields.  Callback invocations are recorded as events;
the three optional callbacks are modelled by three booleans saying whether a
callback is registered.  The write-only internal list `self._chunks` is not
observed by any claim and is not modelled; `emitted` is the sequence of chunks
returned to the consumer of the iteration protocol (which is also what
`collect` gathers via `list(self)`). -/

/-- One recorded callback invocation. -/
inductive StreamEvent : Type
  | contentCb (s : List Char) : StreamEvent
  | chunkCb (c : ChatCompletionChunk) : StreamEvent
  | completeCb (s : List Char) : StreamEvent

/-- Is this event an `on_complete` invocation? -/
def StreamEvent.isComplete : StreamEvent → Bool
  | .completeCb _ => true
  | _ => false

/-- Which of the three optional callbacks were passed to the constructor. -/
structure Callbacks where
  onChunk : Bool
  onContent : Bool
  onComplete : Bool

/-- Result of consuming a line source to the end of iteration. -/
structure StreamRun where
  emitted : List ChatCompletionChunk
  accumulated : List Char
  events : List StreamEvent
  aborted : Bool

/-- The `on_complete` firing at an exit point:
`if self.on_complete and self._accumulated_content: self.on_complete(...)`. -/
def completionEvents (cb : Callbacks) (acc : List Char) : List StreamEvent :=
  if cb.onComplete && !acc.isEmpty then [.completeCb acc] else []

/-- `Stream.__next__`, iterated to the end of the stream.  Faithful to the
loop body: blank lines are skipped; only `"data: "`-prefixed lines are
considered; payload `"[DONE]"` fires completion and stops; an undecodable
payload (`json.JSONDecodeError`) is skipped; a decoded chunk updates the
accumulator, fires `on_content` (when content is truthy) and `on_chunk`, and
is returned to the consumer.  Exhaustion of the underlying iterator fires
completion and stops.  `aborted = true` records an exception other than
`JSONDecodeError` propagating out of `__next__` (a `TypeError` from chunk
construction or content concatenation). -/
def runStreamAux (jsonLoads : List Char → Option JVal) (cb : Callbacks) :
    List (List Char) → List Char → StreamRun
  | [], acc => ⟨[], acc, completionEvents cb acc, false⟩
  | line :: rest, acc =>
    if line.isEmpty then runStreamAux jsonLoads cb rest acc
    else if "data: ".toList.isPrefixOf line then
      let data := line.drop 6
      if data = "[DONE]".toList then
        ⟨[], acc, completionEvents cb acc, false⟩
      else
        match jsonLoads data with
        | none => runStreamAux jsonLoads cb rest acc
        | some j =>
          match ChatCompletionChunk.ofData j with
          | none => ⟨[], acc, [], true⟩
          | some chunk =>
            match extract_content chunk with
            | .error _ => ⟨[], acc, [], true⟩
            | .ok content =>
              let acc' := acc ++ content
              let ev₁ := if cb.onContent && !content.isEmpty then
                  [StreamEvent.contentCb content] else []
              let ev₂ := if cb.onChunk then [StreamEvent.chunkCb chunk] else []
              let r := runStreamAux jsonLoads cb rest acc'
              ⟨chunk :: r.emitted, r.accumulated, ev₁ ++ ev₂ ++ r.events, r.aborted⟩
    else runStreamAux jsonLoads cb rest acc

/-- Consuming a fresh `Stream` (accumulator starts at `""`) to the end. -/
def runStream (jsonLoads : List Char → Option JVal) (cb : Callbacks)
    (lines : List (List Char)) : StreamRun :=
  runStreamAux jsonLoads cb lines []

/-- `AsyncStream.__anext__`, iterated to the end: the async variant's loop
body is character-for-character the same state machine as the sync one
(only the suspension points differ). -/
def runAsyncStreamAux (jsonLoads : List Char → Option JVal) (cb : Callbacks) :
    List (List Char) → List Char → StreamRun
  | [], acc => ⟨[], acc, completionEvents cb acc, false⟩
  | line :: rest, acc =>
    if line.isEmpty then runAsyncStreamAux jsonLoads cb rest acc
    else if "data: ".toList.isPrefixOf line then
      let data := line.drop 6
      if data = "[DONE]".toList then
        ⟨[], acc, completionEvents cb acc, false⟩
      else
        match jsonLoads data with
        | none => runAsyncStreamAux jsonLoads cb rest acc
        | some j =>
          match ChatCompletionChunk.ofData j with
          | none => ⟨[], acc, [], true⟩
          | some chunk =>
            match extract_content chunk with
            | .error _ => ⟨[], acc, [], true⟩
            | .ok content =>
              let acc' := acc ++ content
              let ev₁ := if cb.onContent && !content.isEmpty then
                  [StreamEvent.contentCb content] else []
              let ev₂ := if cb.onChunk then [StreamEvent.chunkCb chunk] else []
              let r := runAsyncStreamAux jsonLoads cb rest acc'
              ⟨chunk :: r.emitted, r.accumulated, ev₁ ++ ev₂ ++ r.events, r.aborted⟩
    else runAsyncStreamAux jsonLoads cb rest acc

/-- Consuming a fresh `AsyncStream` to the end. -/
def runAsyncStream (jsonLoads : List Char → Option JVal) (cb : Callbacks)
    (lines : List (List Char)) : StreamRun :=
  runAsyncStreamAux jsonLoads cb lines []

/-- `Stream.collect`: `chunks = list(self); return self._accumulated_content, chunks`. -/
def collect (r : StreamRun) : List Char × List ChatCompletionChunk :=
  (r.accumulated, r.emitted)

/-- The accumulator that `Stream.print_stream` builds while iterating:
`for chunk in self: content = self._extract_content(chunk); if content:
accumulated += content`.  An `.error` means the `TypeError` of a truthy
non-string content. -/
def printStreamAcc : List ChatCompletionChunk → Except Unit (List Char)
  | [] => .ok []
  | chunk :: rest => do
    let content ← extract_content chunk
    let acc ← printStreamAcc rest
    pure (content ++ acc)

/-- `Stream.print_stream` driven over a whole line source: the text it
returns (the printing to stdout is not modelled). -/
def print_stream (jsonLoads : List Char → Option JVal) (cb : Callbacks)
    (lines : List (List Char)) : Except Unit (List Char) :=
  printStreamAcc (runStream jsonLoads cb lines).emitted

/-- Spec-side description of a chunk's contribution to the accumulated text
(“every non-null `choices[0].delta.content` value”): the first choice's delta
content when it is a string, the empty string otherwise. -/
def specDeltaContent (c : ChatCompletionChunk) : List Char :=
  match c.choices with
  | [] => []
  | ch :: _ =>
    match ch.delta.content with
    | some (.str s) => s
    | _ => []

/-- A line carrying one valid chunk: `"data: "`-prefixed, payload not the
`[DONE]` sentinel, payload decodable to a JSON value from which the chunk
constructor succeeds and whose content is accumulable. -/
def ValidChunkLine (jsonLoads : List Char → Option JVal)
    (line : List Char) (c : ChatCompletionChunk) : Prop :=
  "data: ".toList.isPrefixOf line = true ∧
  line.drop 6 ≠ "[DONE]".toList ∧
  ∃ j, jsonLoads (line.drop 6) = some j ∧
    ChatCompletionChunk.ofData j = some c ∧
    ∃ s, extract_content c = .ok s

/-- The terminal sentinel line `"data: [DONE]"`. -/
def DoneLine (line : List Char) : Prop :=
  "data: ".toList.isPrefixOf line = true ∧ line.drop 6 = "[DONE]".toList

/-! ### `datetime` model

`ConversationHistory` stores `datetime` values (`datetime.utcnow()` makes
naive ones) and serializes them with `datetime.isoformat()`;
`ConversationHistory.from_dict` parses them back with
`datetime.fromisoformat(value.replace('Z', '+00:00'))`.  The repository
targets Python 3.9+, whose `fromisoformat` accepts exactly the strings that
`isoformat` emits (so in particular it rejects a trailing `Z` — hence the
`replace`).  The parser below accepts the `isoformat`-emitted subset of that
grammar (full `HH:MM:SS` time, six fractional digits, `±HH:MM` offset) and
validates the fields exactly as the `datetime`/`timezone` constructors do. -/

/-- A Python `datetime`: calendar fields plus an optional UTC offset
(`none` = naive).  The offset is `(negative?, hours, minutes)`. -/
structure DateTime where
  year : Nat
  month : Nat
  day : Nat
  hour : Nat
  minute : Nat
  second : Nat
  microsecond : Nat
  tzOffset : Option (Bool × Nat × Nat)
deriving DecidableEq

/-- Gregorian leap year, as `calendar.isleap` / the `datetime` constructor. -/
def isLeapYear (y : Nat) : Bool :=
  y % 4 = 0 && (y % 100 != 0 || y % 400 = 0)

/-- Days in a month, as validated by the `datetime` constructor. -/
def daysInMonth (y m : Nat) : Nat :=
  if m = 2 then (if isLeapYear y then 29 else 28)
  else if m = 4 ∨ m = 6 ∨ m = 9 ∨ m = 11 then 30
  else 31

/-- The validity check the `timezone(...)` constructor performs on an
offset. -/
def tzValid : Option (Bool × Nat × Nat) → Prop
  | none => True
  | some (_, h, m) => h ≤ 23 ∧ m ≤ 59

instance : (o : Option (Bool × Nat × Nat)) → Decidable (tzValid o)
  | none => isTrue trivial
  | some (_, _, _) => inferInstanceAs (Decidable (_ ∧ _))

/-- The validity check that the `datetime(...)` and `timezone(...)`
constructors perform. -/
def DateTime.valid (d : DateTime) : Prop :=
  1 ≤ d.year ∧ d.year ≤ 9999 ∧ 1 ≤ d.month ∧ d.month ≤ 12 ∧
  1 ≤ d.day ∧ d.day ≤ daysInMonth d.year d.month ∧
  d.hour ≤ 23 ∧ d.minute ≤ 59 ∧ d.second ≤ 59 ∧ d.microsecond ≤ 999999 ∧
  tzValid d.tzOffset

instance (d : DateTime) : Decidable d.valid := by
  unfold DateTime.valid
  exact inferInstance

/-- Comparison of naive datetimes (`sorted(..., key=lambda x: x[1].updated_at)`):
field-lexicographic, as in CPython. -/
def DateTime.lt (a b : DateTime) : Bool :=
  if a.year ≠ b.year then decide (a.year < b.year)
  else if a.month ≠ b.month then decide (a.month < b.month)
  else if a.day ≠ b.day then decide (a.day < b.day)
  else if a.hour ≠ b.hour then decide (a.hour < b.hour)
  else if a.minute ≠ b.minute then decide (a.minute < b.minute)
  else if a.second ≠ b.second then decide (a.second < b.second)
  else decide (a.microsecond < b.microsecond)

/-- Fixed-width decimal rendering, most significant digit first: the digit
strings inside `datetime.isoformat()` output (zero-padded). -/
def padDigits : Nat → Nat → List Char
  | 0, _ => []
  | k + 1, n => Nat.digitChar (n / 10 ^ k % 10) :: padDigits k n

/-- `datetime.isoformat()`: `YYYY-MM-DDTHH:MM:SS`, `.ffffff` when the
microsecond field is nonzero, and `±HH:MM` for aware datetimes. -/
def isoformat (d : DateTime) : List Char :=
  padDigits 4 d.year ++ '-' :: padDigits 2 d.month ++ '-' :: padDigits 2 d.day ++
  'T' :: padDigits 2 d.hour ++ ':' :: padDigits 2 d.minute ++
  ':' :: padDigits 2 d.second ++
  (if d.microsecond = 0 then [] else '.' :: padDigits 6 d.microsecond) ++
  (match d.tzOffset with
   | none => []
   | some (neg, h, m) =>
     (if neg then '-' else '+') :: padDigits 2 h ++ ':' :: padDigits 2 m)

/-- Read exactly `k` decimal digits (accumulator-style). -/
def readNatAux : Nat → Nat → List Char → Option (Nat × List Char)
  | 0, a, l => some (a, l)
  | _ + 1, _, [] => none
  | k + 1, a, c :: l =>
    if c.isDigit then readNatAux k (a * 10 + (c.toNat - 48)) l else none

/-- Consume one expected character. -/
def expectChar (c : Char) : List Char → Option (List Char)
  | [] => none
  | x :: l => if x = c then some l else none

/-- The optional fractional-seconds part (`.ffffff`). -/
def parseFrac : List Char → Option (Nat × List Char)
  | '.' :: r => readNatAux 6 0 r
  | r => some (0, r)

/-- The optional UTC-offset part (`±HH:MM`). -/
def parseOffset : List Char → Option (Option (Bool × Nat × Nat) × List Char)
  | '+' :: r => do
    let (h, r) ← readNatAux 2 0 r
    let r ← expectChar ':' r
    let (m, r) ← readNatAux 2 0 r
    pure (some (false, h, m), r)
  | '-' :: r => do
    let (h, r) ← readNatAux 2 0 r
    let r ← expectChar ':' r
    let (m, r) ← readNatAux 2 0 r
    pure (some (true, h, m), r)
  | r => pure (none, r)

/-- The `datetime(...)` construction at the end of parsing: succeeds exactly
when the fields pass validation. -/
def mkValidDateTime (y mo dd hh mi ss us : Nat)
    (tz : Option (Bool × Nat × Nat)) : Option DateTime :=
  let d : DateTime := ⟨y, mo, dd, hh, mi, ss, us, tz⟩
  if d.valid then some d else none

/-- `datetime.fromisoformat` on the `isoformat`-emitted grammar:
`YYYY-MM-DD` alone, or `YYYY-MM-DD<sep>HH:MM:SS[.ffffff][±HH:MM]` (the
separator may be any single character; a trailing `Z` is rejected, as in
Python 3.9). -/
def fromisoformat (s : List Char) : Option DateTime := do
  let (y, r) ← readNatAux 4 0 s
  let r ← expectChar '-' r
  let (mo, r) ← readNatAux 2 0 r
  let r ← expectChar '-' r
  let (dd, r) ← readNatAux 2 0 r
  match r with
  | [] => mkValidDateTime y mo dd 0 0 0 0 none
  | _ :: r =>
    let (hh, r) ← readNatAux 2 0 r
    let r ← expectChar ':' r
    let (mi, r) ← readNatAux 2 0 r
    let r ← expectChar ':' r
    let (ss, r) ← readNatAux 2 0 r
    let (us, r) ← parseFrac r
    let (tz, r) ← parseOffset r
    if r.isEmpty then mkValidDateTime y mo dd hh mi ss us tz else none

/-- `value.replace('Z', '+00:00')` on a character list. -/
def replaceZ : List Char → List Char
  | [] => []
  | c :: r => (if c = 'Z' then "+00:00".toList else [c]) ++ replaceZ r

/-! ### Concrete demonstration values used by witnesses and counterexamples -/

/-- A concrete decoded chunk JSON object with `choices[0].delta.content = "hi"`. -/
def demoChunkJson : JVal :=
  .obj [("id", .str "c".toList),
        ("choices", .arr [.obj [("delta", .obj [("content", .str "hi".toList)])]])]

/-- A concrete stand-in for `json.loads`: decodes the payload `"x"` to
`demoChunkJson` and fails (as `json.loads` would) on everything else,
in particular on the non-JSON payload `"[DONE]"`. -/
def demoLoads : List Char → Option JVal :=
  fun s => if s = "x".toList then some demoChunkJson else none

/-- The chunk that `ChatCompletionChunk(**json.loads("x-payload"))` builds. -/
def demoChunk : ChatCompletionChunk :=
  ⟨some (.str "c".toList), none, none, none,
    [⟨.num 0, ⟨none, some (.str "hi".toList), none, none⟩, none, none⟩]⟩

/-! ### `src/tela/_history.py`: `ConversationHistory` -/

/-- One message dict as built by `ConversationHistory.add_message`:
`{"role": ..., "content": ..., "timestamp": ..., ["metadata": ...]}`. -/
structure Message where
  role : String
  content : String
  timestamp : String
  metadata : Option JVal

/-- The `ConversationHistory` pydantic model. -/
structure ConversationHistory where
  id : String
  created_at : DateTime
  updated_at : DateTime
  messages : List Message
  metadata : List (String × JVal)

/-- `add_message(role, content, metadata?)`: appends the message dict with a
fresh `utcnow().isoformat()` timestamp (`ts`) and bumps `updated_at` to a
second `utcnow()` reading (`now`); both clock readings are passed
explicitly. -/
def ConversationHistory.add_message (c : ConversationHistory)
    (role content : String) (metadata : Option JVal)
    (ts : String) (now : DateTime) : ConversationHistory :=
  { c with messages := c.messages ++ [⟨role, content, ts, metadata⟩],
           updated_at := now }

/-- `get_messages(role_filter?)`: role-filtered view (`if role_filter:` —
`None` and `""` mean no filtering). -/
def ConversationHistory.get_messages (c : ConversationHistory)
    (roleFilter : Option String) : List Message :=
  if optStrTruthy roleFilter then
    c.messages.filter (fun m => m.role = roleFilter.getD "")
  else c.messages

/-- The `message_count` property. -/
def ConversationHistory.message_count (c : ConversationHistory) : Nat :=
  c.messages.length

/-- A timestamp slot in a serialized conversation dict: `to_dict` writes ISO
strings, but `from_dict` also accepts `datetime` objects (its `isinstance`
check). -/
inductive TimeVal : Type
  | str (s : List Char) : TimeVal
  | dt (t : DateTime) : TimeVal

/-- The dict produced by `ConversationHistory.to_dict` / consumed by
`from_dict` (`messages` and `metadata` are carried by reference). -/
structure ConvDict where
  id : String
  created_at : TimeVal
  updated_at : TimeVal
  messages : List Message
  metadata : List (String × JVal)
  message_count : Nat

/-- `to_dict()`. -/
def ConversationHistory.to_dict (c : ConversationHistory) : ConvDict :=
  ⟨c.id, .str (isoformat c.created_at), .str (isoformat c.updated_at),
    c.messages, c.metadata, c.message_count⟩

/-- The timestamp normalization in `from_dict`:
`datetime.fromisoformat(value.replace('Z', '+00:00'))` on strings, pass-through
on `datetime` values. -/
def parseTimeVal : TimeVal → Option DateTime
  | .str s => fromisoformat (replaceZ s)
  | .dt t => some t

/-- `from_dict(data)`: parse the two timestamps, then construct the pydantic
model (`cls(**data)`; the extra `message_count` key is ignored by pydantic).
`none` models the `ValueError` a bad timestamp raises. -/
def ConversationHistory.from_dict (data : ConvDict) : Option ConversationHistory := do
  let created ← parseTimeVal data.created_at
  let updated ← parseTimeVal data.updated_at
  pure ⟨data.id, created, updated, data.messages, data.metadata⟩

/-! ### `src/tela/_history.py`: `HistoryManager` -/

/-- `dict` assignment `m[k] = v`: overwrite in place when the key exists
(keeping its position), append otherwise. -/
def dictInsert {α : Type} (m : List (String × α)) (k : String) (v : α) :
    List (String × α) :=
  if m.any (fun p => p.1 = k) then
    m.map (fun p => if p.1 = k then (k, v) else p)
  else m ++ [(k, v)]

/-- The `HistoryManager` state.  The conversation map is an association list
in `dict` insertion order.  `hasClientChats` models
`hasattr(self._client, 'chats')` (false when the client is `None`). -/
structure HistoryManager where
  enabled : Bool
  persistence_file : Option String
  max_conversations : Nat
  conversations : List (String × ConversationHistory)
  hasClientChats : Bool
  server_sync : Bool

/-- `_load_from_file`: per-entry `from_dict` with corrupted entries
skipped. -/
def loadFromFileData (entries : List (String × ConvDict)) :
    List (String × ConversationHistory) :=
  entries.foldl (fun acc p =>
    match ConversationHistory.from_dict p.2 with
    | some conv => dictInsert acc p.1 conv
    | none => acc) []

/-- `HistoryManager.__init__`: `server_sync = server_sync and client is not None`;
the persisted file (modelled by `fileData`, empty when the file does not
exist) is loaded only when enabled and a persistence path is configured. -/
def mkHistoryManager (enabled : Bool) (persistence_file : Option String)
    (max_conversations : Nat) (clientPresent clientHasChats server_sync : Bool)
    (fileData : List (String × ConvDict)) : HistoryManager :=
  { enabled := enabled
    persistence_file := persistence_file
    max_conversations := max_conversations
    conversations :=
      if enabled && optStrTruthy persistence_file then loadFromFileData fileData
      else []
    hasClientChats := clientPresent && clientHasChats
    server_sync := server_sync && clientPresent }

/-- Stable insertion into a sorted accumulator: the new element goes after
every element not strictly greater than it. -/
def insortBy {α : Type} (lt : α → α → Bool) (x : α) : List α → List α
  | [] => [x]
  | y :: ys => if lt x y then x :: y :: ys else y :: insortBy lt x ys

/-- Stable ascending sort (`sorted(...)`): elements are inserted in original
order, each after all earlier-inserted elements that do not exceed it. -/
def sortBy {α : Type} (lt : α → α → Bool) (l : List α) : List α :=
  l.foldl (fun acc x => insortBy lt x acc) []

/-- `_cleanup_old_conversations`: when over capacity, sort the entries by
`updated_at` ascending and delete the oldest until within budget. -/
def HistoryManager.cleanup_old_conversations (m : HistoryManager) :
    HistoryManager :=
  if m.conversations.length ≤ m.max_conversations then m
  else
    let sortedConvs := sortBy
      (fun a b => DateTime.lt a.2.updated_at b.2.updated_at) m.conversations
    let toRemove := m.conversations.length - m.max_conversations
    let removeIds := (sortedConvs.take toRemove).map Prod.fst
    { m with conversations :=
        m.conversations.filter (fun p => !removeIds.contains p.1) }

/-- `create_conversation(conversation_id?, metadata?)`: when disabled,
return an unregistered temporary store; otherwise register and run the
eviction check.  `freshId` models `str(uuid.uuid4())`, `now` the
`datetime.utcnow()` default of the pydantic fields. -/
def HistoryManager.create_conversation (m : HistoryManager)
    (conversation_id : Option String) (metadata : Option (List (String × JVal)))
    (freshId : String) (now : DateTime) :
    ConversationHistory × HistoryManager :=
  let cid := if optStrTruthy conversation_id then conversation_id.getD ""
             else freshId
  let conv : ConversationHistory := ⟨cid, now, now, [], metadata.getD []⟩
  if !m.enabled then (conv, m)
  else
    let m' := { m with conversations := dictInsert m.conversations conv.id conv }
    (conv, m'.cleanup_old_conversations)

/-- `get_conversation(conversation_id)`: disabled managers always report
not-found. -/
def HistoryManager.get_conversation (m : HistoryManager)
    (conversation_id : String) : Option ConversationHistory :=
  if !m.enabled then none
  else m.conversations.lookup conversation_id

/-- `list_conversations()`: the tracked IDs in map order. -/
def HistoryManager.list_conversations (m : HistoryManager) : List String :=
  if !m.enabled then []
  else m.conversations.map Prod.fst

/-- A server chat record as consumed by `sync_with_server`
(`getattr`-accessed attributes modelled as options). -/
structure ServerChat where
  chat_id : Option String
  id : Option String
  title : Option JVal
  metadata : Option JVal
  created_at : Option DateTime
  updated_at : Option DateTime

/-- One page of `client.chats.list(page_size=100)`. -/
structure ChatsPage where
  data : List ServerChat
  total : Nat

/-- The dict `sync_with_server` returns. -/
structure SyncResult where
  synced : Bool
  synced_count : Nat
  total_server_chats : Nat
  errors : List String
  reason : Option String
  note : Option String

/-- `getattr(server_chat, 'chat_id', getattr(server_chat, 'id', None))`. -/
def serverChatEffectiveId (c : ServerChat) : Option String :=
  match c.chat_id with
  | some v => some v
  | none => c.id

/-- `sync_with_server()`: one-directional create-only reconciliation.  The
server page is an explicit argument (the injected collaborator's reply);
`now` models the `datetime.utcnow()` fallback timestamps. -/
def HistoryManager.sync_with_server (m : HistoryManager)
    (serverChats : ChatsPage) (now : DateTime) : SyncResult × HistoryManager :=
  if !(m.server_sync && m.hasClientChats) then
    (⟨false, 0, 0, [], some "Server sync not enabled or client not available",
      none⟩, m)
  else if serverChats.data.isEmpty && serverChats.total = 0 then
    (⟨true, 0, 0, ["Server chat endpoints may not be available"], none,
      some "Graceful degradation - no server chats available"⟩, m)
  else
    let step := fun (acc : Nat × HistoryManager) (sc : ServerChat) =>
      match serverChatEffectiveId sc with
      | none => acc
      | some cid =>
        if cid.isEmpty then acc
        else
          match acc.2.get_conversation cid with
          | some _ => acc
          | none =>
            let conv : ConversationHistory :=
              ⟨cid, sc.created_at.getD now, sc.updated_at.getD now, [],
                [("server_title", sc.title.getD .null),
                 ("server_metadata", sc.metadata.getD .null),
                 ("synced_from_server", .bool true)]⟩
            (acc.1 + 1,
              { acc.2 with conversations := dictInsert acc.2.conversations cid conv })
    let res := serverChats.data.foldl step (0, m)
    (⟨true, res.1, serverChats.data.length, [], none, none⟩, res.2)

/-- `create_server_chat(...)`: the collaborator's reply is an explicit
argument (`.error` = the call raised, `.ok` = the `chat_id` entry of the
response dict); `now` models the `datetime.utcnow()` field defaults. -/
def HistoryManager.create_server_chat (m : HistoryManager)
    (conversation_id : Option String) (module_id message : String)
    (serverResult : Except Unit (Option String)) (now : DateTime) :
    Option String × HistoryManager :=
  if !(m.server_sync && m.hasClientChats) then (none, m)
  else
    match serverResult with
    | .error _ => (none, m)
    | .ok chatIdOpt =>
      if !optStrTruthy chatIdOpt then (none, m)
      else
        let chatId := chatIdOpt.getD ""
        let isLocalFallback := strStartsWith chatId "local_"
        if optStrTruthy conversation_id || m.enabled then
          let conv : ConversationHistory :=
            ⟨chatId, now, now, [],
              [("server_module_id", .str module_id.toList),
               ("server_initial_message", .str message.toList),
               ("synced_with_server", .bool !isLocalFallback),
               ("local_fallback", .bool isLocalFallback)]⟩
          if m.enabled then
            (some chatId,
              { m with conversations := dictInsert m.conversations chatId conv })
          else (some chatId, m)
        else (some chatId, m)

/-! ### `src/tela/_client.py`: context aggregation, send-message, credentials -/

/-- A `{role, content}` message as serialized for the model context. -/
structure CtxMsg where
  role : String
  content : String
deriving DecidableEq

/-- The role filter + reshaping loop at the end of
`get_conversation_context`: keep `user`/`assistant`/`system` messages, each
reduced to `{role, content}`. -/
def formatMessages : List Message → List CtxMsg
  | [] => []
  | msg :: rest =>
    if msg.role = "user" ∨ msg.role = "assistant" ∨ msg.role = "system" then
      ⟨msg.role, msg.content⟩ :: formatMessages rest
    else formatMessages rest

/-- `if max_messages and len(conversation_messages) > max_messages:` keep the
last `max_messages` entries (`0`/`None` are falsy: no trimming). -/
def truncateMessages (msgs : List Message) : Option Nat → List Message
  | some k => if k ≠ 0 ∧ k < msgs.length then msgs.drop (msgs.length - k) else msgs
  | none => msgs

/-- `Tela.get_conversation_context` (the async variant is identical):
resolve the message list (raising `ValueError` for an unknown conversation
id), apply the limit, then filter/reshape. -/
def get_conversation_context (m : HistoryManager)
    (conversation_id : Option String) (messages : Option (List Message))
    (max_messages : Option Nat) : Except String (List CtxMsg) :=
  if optStrTruthy conversation_id then
    match m.get_conversation (conversation_id.getD "") with
    | none => .error "Conversation not found"
    | some conv =>
      .ok (formatMessages (truncateMessages (conv.get_messages none) max_messages))
  else
    match messages with
    | some msgs =>
      if !msgs.isEmpty then
        .ok (formatMessages (truncateMessages msgs max_messages))
      else .ok []
    | none => .ok []

/-- `response.choices[0].message` of a non-streaming completion. -/
structure CompletionMessage where
  role : String
  content : String

/-- One choice of a non-streaming completion. -/
structure RespChoice where
  message : CompletionMessage

/-- A non-streaming completion response. -/
structure CompletionResponse where
  choices : List RespChoice

/-- The client state `send_message` touches: the history manager and the
`chat.completions._enable_history` flag it saves, clears and restores. -/
structure TelaState where
  history : HistoryManager
  completionsEnableHistory : Bool

/-- Apply a mutation to the store registered under `k` (aliasing: `conv` is
the same object as the map entry). -/
def updateConversation (conversations : List (String × ConversationHistory))
    (k : String) (f : ConversationHistory → ConversationHistory) :
    List (String × ConversationHistory) :=
  conversations.map (fun p => if p.1 = k then (p.1, f p.2) else p)

set_option linter.unusedVariables false in
/-- `Tela.send_message` (the async variant is identical).  The completion
collaborator is an explicit argument; `.error` = the call raised.  The
`_enable_history` flag is cleared for the call and restored in `finally`, so
the returned state carries the original flag on every path.  Clock/uuid
readings are explicit (`freshId`/`now` for a possible creation, `ts₁ now₁`
and `ts₂ now₂` for the two `add_message` writebacks). -/
def send_message (st : TelaState) (message : String)
    (conversation_id : Option String) (max_history : Option Nat)
    (freshId : String) (now : DateTime)
    (completion : List CtxMsg → Except String CompletionResponse)
    (ts₁ : String) (now₁ : DateTime) (ts₂ : String) (now₂ : DateTime) :
    Except String String × TelaState :=
  let resolved : ConversationHistory × HistoryManager × String :=
    if optStrTruthy conversation_id then
      match st.history.get_conversation (conversation_id.getD "") with
      | some conv => (conv, st.history, conversation_id.getD "")
      | none =>
        let created := st.history.create_conversation conversation_id none freshId now
        (created.1, created.2, conversation_id.getD "")
    else
      let existing := st.history.list_conversations
      if !existing.isEmpty then
        let cid := (existing.getLast?).getD ""
        match st.history.get_conversation cid with
        | some conv => (conv, st.history, cid)
        | none => (⟨"", now, now, [], []⟩, st.history, cid)
          -- unreachable: a listed id is always tracked in an enabled manager
      else
        let created := st.history.create_conversation none none freshId now
        (created.1, created.2, created.1.id)
  let conv := resolved.1
  let h := resolved.2.1
  let cid := resolved.2.2
  match get_conversation_context h (some cid) none max_history with
  | .error e => (.error e, { st with history := h })
  | .ok ctx =>
    let ctx := ctx ++ [⟨"user", message⟩]
    match completion ctx with
    | .error e => (.error e, { st with history := h })
    | .ok resp =>
      match resp.choices.head? with
      | none => (.error "IndexError: list index out of range",
          { st with history := h })
      | some choice =>
        let assistant := choice.message.content
        let h' := { h with conversations :=
          updateConversation h.conversations cid (fun c =>
            (c.add_message "user" message none ts₁ now₁).add_message
              "assistant" assistant none ts₂ now₂) }
        (.ok assistant, { st with history := h' })

/-- The credentials `Tela.__init__` / `AsyncTela.__init__` validate. -/
structure Credentials where
  api_key : String
  organization : String
  project : String
deriving DecidableEq

/-- `if value is None: value = os.environ.get(VAR)`. -/
def resolveEnv (passed env : Option String) : Option String :=
  match passed with
  | some v => some v
  | none => env

/-- The credential checks of `Tela.__init__`: each of api key, organization
and project raises `AuthenticationError` when it resolves to `None` *or to
the empty string*. -/
def telaInit (api_key organization project envKey envOrg envProj :
    Option String) : Except String Credentials :=
  match resolveEnv api_key envKey with
  | none => .error "api_key"
  | some kv =>
    if kv = "" then .error "api_key"
    else
      match resolveEnv organization envOrg with
      | none => .error "organization"
      | some ov =>
        if ov = "" then .error "organization"
        else
          match resolveEnv project envProj with
          | none => .error "project"
          | some pv =>
            if pv = "" then .error "project"
            else .ok ⟨kv, ov, pv⟩

/-- The credential checks of `AsyncTela.__init__`: organization and project
are rejected when `None` or empty, but the api key check is only
`if api_key is None:` — an empty-string api key is accepted. -/
def asyncTelaInit (api_key organization project envKey envOrg envProj :
    Option String) : Except String Credentials :=
  match resolveEnv api_key envKey with
  | none => .error "api_key"
  | some kv =>
    match resolveEnv organization envOrg with
    | none => .error "organization"
    | some ov =>
      if ov = "" then .error "organization"
      else
        match resolveEnv project envProj with
        | none => .error "project"
        | some pv =>
          if pv = "" then .error "project"
          else .ok ⟨kv, ov, pv⟩

/-- The conversation store that `create_conversation(some id, None)` builds
at clock reading `now`. -/
def convEntry (p : String × DateTime) : String × ConversationHistory :=
  (p.1, ⟨p.1, p.2, p.2, [], []⟩)

/-- A sequence of `create_conversation(id_i)` calls at clock readings
`now_i`, with no deletions in between (the experiment of claim C3). -/
def createConversations (m : HistoryManager)
    (inputs : List (String × DateTime)) : HistoryManager :=
  inputs.foldl
    (fun mm p => (mm.create_conversation (some p.1) none "" p.2).2) m

/-- A concrete valid naive datetime. -/
def demoDT : DateTime := ⟨2024, 1, 15, 12, 30, 45, 123456, none⟩

/-- A later concrete datetime for second clock readings. -/
def demoDT2 : DateTime := ⟨2024, 1, 15, 12, 30, 46, 0, none⟩

/-- A message dict as `add_message` builds it. -/
def mkDemoMsg (r c : String) : Message := ⟨r, c, "2024-01-15T12:00:00", none⟩

/-- Six alternating user/assistant messages `[u1,a1,u2,a2,u3,a3]`. -/
def demoMessages : List Message :=
  [mkDemoMsg "user" "u1", mkDemoMsg "assistant" "a1", mkDemoMsg "user" "u2",
   mkDemoMsg "assistant" "a2", mkDemoMsg "user" "u3", mkDemoMsg "assistant" "a3"]

/-- A tracked conversation store holding `demoMessages`. -/
def demoConv : ConversationHistory :=
  ⟨"conv1", demoDT, demoDT, demoMessages, [("topic", .str "demo".toList)]⟩

/-- An enabled manager tracking `demoConv`. -/
def demoManager : HistoryManager :=
  ⟨true, none, 1000, [("conv1", demoConv)], false, false⟩

/-- A disabled manager with server sync configured (constructible through
`HistoryManager.__init__` with `enabled=False, server_sync=True` and a
client that has a `chats` attribute). -/
def demoDisabledSyncManager : HistoryManager :=
  mkHistoryManager false none 1000 true true true []

/-- A disabled manager with no client. -/
def demoDisabledManager : HistoryManager :=
  mkHistoryManager false none 1000 false false false []

/-- A one-record server chat listing. -/
def demoServerPage : ChatsPage :=
  ⟨[⟨some "c1", none, none, none, none, none⟩], 1⟩

/-- A `"data: "`-prefixed line is not blank. -/
theorem not_isEmpty_of_data_isPrefixOf {line : List Char}
    (h : "data: ".toList.isPrefixOf line = true) : line.isEmpty = false := by
  cases line with
  | nil => exact absurd h (by decide)
  | cons a l => rfl

/-- Successful content extraction yields exactly the spec-side content. -/
theorem extract_content_ok_eq_specDeltaContent {c : ChatCompletionChunk}
    {s : List Char} (h : extract_content c = .ok s) : s = specDeltaContent c := by
  unfold extract_content at h
  unfold specDeltaContent
  split at h
  next heq =>
    obtain rfl : ([] : List Char) = s := by simpa using h
    simp [heq]
  next choice tail heq =>
    split at h
    next hc =>
      obtain rfl : ([] : List Char) = s := by simpa using h
      simp [heq, hc]
    next v hc =>
      split at h
      next ht =>
        split at h
        next t =>
          obtain rfl : t = s := by simpa using h
          simp [heq, hc]
        next hne =>
          simp at h
      next ht =>
        obtain rfl : ([] : List Char) = s := by simpa using h
        simp only [Bool.not_eq_true] at ht
        cases v with
        | str t =>
          obtain rfl : t = [] := by
            simpa [jvalTruthy, List.isEmpty_iff] using ht
          simp [heq, hc]
        | null => simp [heq, hc]
        | bool b => simp [heq, hc]
        | num n => simp [heq, hc]
        | arr xs => simp [heq, hc]
        | obj kvs => simp [heq, hc]

/-- `on_content` invocations are never `on_complete` invocations. -/
theorem filter_isComplete_contentIf (P : Prop) [Decidable P] (s : List Char) :
    (if P then [StreamEvent.contentCb s] else []).filter StreamEvent.isComplete = [] := by
  split <;> simp [StreamEvent.isComplete]

/-- `on_chunk` invocations are never `on_complete` invocations. -/
theorem filter_isComplete_chunkIf (P : Prop) [Decidable P] (c : ChatCompletionChunk) :
    (if P then [StreamEvent.chunkCb c] else []).filter StreamEvent.isComplete = [] := by
  split <;> simp [StreamEvent.isComplete]

/-- The completion firing at an exit point consists of `on_complete`
invocations only. -/
theorem filter_isComplete_completionEvents (cb : Callbacks) (acc : List Char) :
    (completionEvents cb acc).filter StreamEvent.isComplete = completionEvents cb acc := by
  unfold completionEvents
  split <;> simp [StreamEvent.isComplete]

/-- Core of claim C1: over any whole consumption of the line source that does
not abort with an exception, the `on_complete` invocations recorded are
exactly those of a single exit-point firing with the final accumulated text. -/
theorem runStreamAux_filter_isComplete (jsonLoads : List Char → Option JVal)
    (cb : Callbacks) :
    ∀ (lines : List (List Char)) (acc : List Char),
      (runStreamAux jsonLoads cb lines acc).aborted = false →
      (runStreamAux jsonLoads cb lines acc).events.filter StreamEvent.isComplete =
        completionEvents cb (runStreamAux jsonLoads cb lines acc).accumulated := by
  intro lines
  induction lines with
  | nil =>
    intro acc _
    exact filter_isComplete_completionEvents cb acc
  | cons line rest ih =>
    intro acc hab
    rw [runStreamAux] at hab ⊢
    by_cases h1 : line.isEmpty
    · simp only [h1, if_true] at hab ⊢
      exact ih acc hab
    · simp only [h1, if_false, Bool.false_eq_true] at hab ⊢
      by_cases h2 : "data: ".toList.isPrefixOf line
      · simp only [h2, if_true] at hab ⊢
        by_cases h3 : line.drop 6 = "[DONE]".toList
        · simp only [h3, if_pos] at hab ⊢
          exact filter_isComplete_completionEvents cb acc
        · simp only [if_neg h3] at hab ⊢
          cases hl : jsonLoads (line.drop 6) with
          | none =>
            simp only [hl] at hab ⊢
            exact ih acc hab
          | some j =>
            simp only [hl] at hab ⊢
            cases hc : ChatCompletionChunk.ofData j with
            | none =>
              simp only [hc] at hab
              exact absurd hab (by decide)
            | some chunk =>
              simp only [hc] at hab ⊢
              cases he : extract_content chunk with
              | error e =>
                simp only [he] at hab
                exact absurd hab (by decide)
              | ok content =>
                simp only [he] at hab ⊢
                simp only [List.filter_append, filter_isComplete_contentIf,
                  filter_isComplete_chunkIf, List.nil_append]
                exact ih (acc ++ content) hab
      · simp only [h2, if_false, Bool.false_eq_true] at hab ⊢
        exact ih acc hab

/-- The async state machine computes exactly the same run as the sync one. -/
theorem runAsyncStreamAux_eq (jsonLoads : List Char → Option JVal) (cb : Callbacks) :
    ∀ (lines : List (List Char)) (acc : List Char),
      runAsyncStreamAux jsonLoads cb lines acc = runStreamAux jsonLoads cb lines acc := by
  intro lines
  induction lines with
  | nil => intro acc; rfl
  | cons line rest ih =>
    intro acc
    rw [runAsyncStreamAux, runStreamAux]
    by_cases h1 : line.isEmpty
    · simp only [h1, if_true, ih]
    · simp only [h1, if_false, Bool.false_eq_true]
      by_cases h2 : "data: ".toList.isPrefixOf line
      · simp only [h2, if_true]
        by_cases h3 : line.drop 6 = "[DONE]".toList
        · simp only [h3, if_pos]
        · simp only [if_neg h3]
          cases hl : jsonLoads (line.drop 6) with
          | none => simp only [hl, ih]
          | some j =>
            simp only [hl]
            cases hc : ChatCompletionChunk.ofData j with
            | none => simp only [hc]
            | some chunk =>
              simp only [hc]
              cases he : extract_content chunk with
              | error e => simp only [he]
              | ok content => simp only [he, ih]
      · simp only [h2, if_false, Bool.false_eq_true, ih]

/-- Core of claim C4: consuming valid chunk lines followed by the sentinel
emits exactly the decoded chunks, accumulates exactly the spec-side
concatenation, and does not abort. -/
theorem runStreamAux_valid_then_done (jsonLoads : List Char → Option JVal)
    (cb : Callbacks) :
    ∀ (lines : List (List Char)) (cs : List ChatCompletionChunk)
      (dl : List Char) (acc : List Char),
      List.Forall₂ (ValidChunkLine jsonLoads) lines cs → DoneLine dl →
      (runStreamAux jsonLoads cb (lines ++ [dl]) acc).emitted = cs ∧
      (runStreamAux jsonLoads cb (lines ++ [dl]) acc).accumulated =
        acc ++ (cs.map specDeltaContent).flatten ∧
      (runStreamAux jsonLoads cb (lines ++ [dl]) acc).aborted = false := by
  intro lines cs dl acc hv hd
  induction hv generalizing acc with
  | nil =>
    obtain ⟨hp, hdone⟩ := hd
    rw [List.nil_append, runStreamAux]
    simp only [not_isEmpty_of_data_isPrefixOf hp, Bool.false_eq_true, if_false,
      hp, if_true, hdone, if_pos]
    refine ⟨?_, ?_, ?_⟩ <;> simp
  | cons hline hrest ih =>
    rename_i line c lines' cs'
    obtain ⟨hp, hnd, j, hj, hc, s, hs⟩ := hline
    have hseq := extract_content_ok_eq_specDeltaContent hs
    subst hseq
    rw [List.cons_append, runStreamAux]
    simp only [not_isEmpty_of_data_isPrefixOf hp, Bool.false_eq_true, if_false,
      hp, if_true, if_neg hnd, hj, hc, hs]
    obtain ⟨ih1, ih2, ih3⟩ := ih (acc ++ specDeltaContent c)
    refine ⟨by simp [ih1], ?_, by simp [ih3]⟩
    simp [ih2, List.append_assoc]

/-- Every chunk emitted through valid chunk lines admits content extraction;
hence `print_stream`'s re-extraction over the emitted chunks succeeds and
rebuilds the same concatenation. -/
theorem printStreamAcc_of_extract_ok :
    ∀ (cs : List ChatCompletionChunk),
      (∀ c ∈ cs, ∃ s, extract_content c = .ok s) →
      printStreamAcc cs = .ok ((cs.map specDeltaContent).flatten) := by
  intro cs h
  induction cs with
  | nil => rfl
  | cons c rest ih =>
    obtain ⟨s, hs⟩ := h c (by simp)
    have hseq := extract_content_ok_eq_specDeltaContent hs
    subst hseq
    rw [printStreamAcc, hs, ih (fun c hc => h c (by simp [hc]))]
    rfl

/-- Valid chunk lines only produce chunks with extractable content. -/
theorem forall_extract_ok_of_forall₂ (jsonLoads : List Char → Option JVal) :
    ∀ {lines : List (List Char)} {cs : List ChatCompletionChunk},
      List.Forall₂ (ValidChunkLine jsonLoads) lines cs →
      ∀ c ∈ cs, ∃ s, extract_content c = .ok s := by
  intro lines cs hv
  induction hv with
  | nil => intro c hc; simp at hc
  | cons hline hrest ih =>
    intro c hc
    rcases List.mem_cons.mp hc with rfl | hc
    · exact hline.2.2.choose_spec.2.2
    · exact ih c hc

/-- Core of claim C5: a `"data: "`-prefixed line whose payload is neither the
sentinel nor decodable JSON is invisible to the whole run. -/
theorem runStreamAux_skip_malformed (jsonLoads : List Char → Option JVal)
    (cb : Callbacks) (mal : List Char)
    (hp : "data: ".toList.isPrefixOf mal = true)
    (hj : jsonLoads (mal.drop 6) = none)
    (hnd : mal.drop 6 ≠ "[DONE]".toList) :
    ∀ (ls₁ ls₂ : List (List Char)) (acc : List Char),
      runStreamAux jsonLoads cb (ls₁ ++ mal :: ls₂) acc =
        runStreamAux jsonLoads cb (ls₁ ++ ls₂) acc := by
  intro ls₁
  induction ls₁ with
  | nil =>
    intro ls₂ acc
    rw [List.nil_append, List.nil_append, runStreamAux]
    simp only [not_isEmpty_of_data_isPrefixOf hp, Bool.false_eq_true, if_false,
      hp, if_true, if_neg hnd, hj]
  | cons line rest ih =>
    intro ls₂ acc
    rw [List.cons_append, List.cons_append, runStreamAux, runStreamAux]
    by_cases h1 : line.isEmpty
    · simp only [h1, if_true, ih]
    · simp only [h1, if_false, Bool.false_eq_true]
      by_cases h2 : "data: ".toList.isPrefixOf line
      · simp only [h2, if_true]
        by_cases h3 : line.drop 6 = "[DONE]".toList
        · simp only [h3, if_pos]
        · simp only [if_neg h3]
          cases hl : jsonLoads (line.drop 6) with
          | none => simp only [hl, ih]
          | some jv =>
            simp only [hl]
            cases hc : ChatCompletionChunk.ofData jv with
            | none => simp only [hc]
            | some chunk =>
              simp only [hc]
              cases he : extract_content chunk with
              | error e => simp only [he]
              | ok content => simp only [he, ih]
      · simp only [h2, if_false, Bool.false_eq_true, ih]

/-! ### Round-trip facts about the `datetime` model -/

/-- Decimal digits render to digit characters and read back. -/
theorem digitChar_facts : ∀ m < 10, (Nat.digitChar m).isDigit = true ∧
    (Nat.digitChar m).toNat - 48 = m ∧ Nat.digitChar m ≠ 'Z' := by decide

/-- Reading `k` digits off a `k`-wide padded rendering recovers the value
(mod `10 ^ k`) and leaves the rest of the input untouched. -/
theorem readNatAux_padDigits :
    ∀ (k a n : Nat) (rest : List Char),
      readNatAux k a (padDigits k n ++ rest) = some (a * 10 ^ k + n % 10 ^ k, rest) := by
  intro k
  induction k with
  | zero => intro a n rest; simp [padDigits, readNatAux, Nat.mod_one]
  | succ k ih =>
    intro a n rest
    have hd := digitChar_facts (n / 10 ^ k % 10) (Nat.mod_lt _ (by norm_num))
    rw [padDigits, List.cons_append, readNatAux, if_pos hd.1, hd.2.1, ih]
    congr 2
    have hmul : 10 ^ (k + 1) = 10 ^ k * 10 := by ring
    rw [hmul, Nat.mod_mul]
    ring

/-- Padded digit strings contain no `'Z'`. -/
theorem padDigits_ne_Z : ∀ (k n : Nat), 'Z' ∉ padDigits k n := by
  intro k
  induction k with
  | zero => intro n; simp [padDigits]
  | succ k ih =>
    intro n
    have hd := digitChar_facts (n / 10 ^ k % 10) (Nat.mod_lt _ (by norm_num))
    simp [padDigits, ih]
    exact fun h => hd.2.2 h.symm

/-- `replace` distributes over concatenation. -/
theorem replaceZ_append : ∀ (a b : List Char),
    replaceZ (a ++ b) = replaceZ a ++ replaceZ b := by
  intro a b
  induction a with
  | nil => rfl
  | cons c r ih => simp [replaceZ, ih]

/-- `replace('Z', ...)` is the identity on strings without `'Z'`. -/
theorem replaceZ_of_not_mem : ∀ (s : List Char), 'Z' ∉ s → replaceZ s = s := by
  intro s h
  induction s with
  | nil => rfl
  | cons c r ih =>
    simp only [List.mem_cons, not_or] at h
    rw [replaceZ, if_neg (fun hc => h.1 hc.symm), ih h.2]
    rfl

/-- `isoformat` of a naive datetime contains no `'Z'`. -/
theorem not_Z_mem_isoformat (d : DateTime) (hz : d.tzOffset = none) :
    'Z' ∉ isoformat d := by
  unfold isoformat
  rw [hz]
  intro hmem
  simp only [List.append_nil, List.mem_append, List.mem_cons] at hmem
  rcases hmem with ((((((h | h) | h) | h) | h) | h) | h)
  · exact padDigits_ne_Z 4 d.year h
  · rcases h with h | h
    · exact absurd h (by decide)
    · exact padDigits_ne_Z 2 d.month h
  · rcases h with h | h
    · exact absurd h (by decide)
    · exact padDigits_ne_Z 2 d.day h
  · rcases h with h | h
    · exact absurd h (by decide)
    · exact padDigits_ne_Z 2 d.hour h
  · rcases h with h | h
    · exact absurd h (by decide)
    · exact padDigits_ne_Z 2 d.minute h
  · rcases h with h | h
    · exact absurd h (by decide)
    · exact padDigits_ne_Z 2 d.second h
  · by_cases hus : d.microsecond = 0
    · rw [if_pos hus] at h
      simp at h
    · rw [if_neg hus] at h
      rcases List.mem_cons.mp h with h | h
      · exact absurd h (by decide)
      · exact padDigits_ne_Z 6 d.microsecond h

/-- Reading a padded field that ends the input. -/
theorem readNatAux_padDigits_nil (k a n : Nat) :
    readNatAux k a (padDigits k n) = some (a * 10 ^ k + n % 10 ^ k, []) := by
  have := readNatAux_padDigits k a n []
  simpa using this

/-- Consuming the expected separator. -/
theorem expectChar_cons (c : Char) (l : List Char) :
    expectChar c (c :: l) = some l := by
  simp [expectChar]

/-- No fractional part before an offset sign or the end of input. -/
theorem parseFrac_nil : parseFrac [] = some (0, []) := rfl

/-- No fractional part before an offset sign. -/
theorem parseFrac_plus (r : List Char) :
    parseFrac ('+' :: r) = some (0, '+' :: r) := rfl

/-- A six-digit fractional part. -/
theorem parseFrac_dot (r : List Char) :
    parseFrac ('.' :: r) = readNatAux 6 0 r := rfl

/-- No offset at the end of input. -/
theorem parseOffset_nil : parseOffset [] = some (none, []) := rfl

/-- The `+00:00` offset. -/
theorem parseOffset_utc :
    parseOffset ('+' :: '0' :: '0' :: ':' :: '0' :: '0' :: []) =
      some (some (false, 0, 0), []) := rfl

set_option maxHeartbeats 2000000 in
/-- `fromisoformat` accepts `isoformat` output of a valid naive datetime,
both as-is and with a `+00:00` offset appended (the form a trailing `Z`
becomes after `replace('Z', '+00:00')`). -/
theorem fromisoformat_isoformat (d : DateTime) (hv : d.valid)
    (hz : d.tzOffset = none) :
    fromisoformat (isoformat d) = some d ∧
    fromisoformat (isoformat d ++ "+00:00".toList) =
      some { d with tzOffset := some (false, 0, 0) } := by
  rcases d with ⟨y, mo, dd, hh, mi, ss, us, tz⟩
  simp only at hz
  subst hz
  obtain ⟨h1, h2, h3, h4, h5, h6, h7, h8, h9, h10, -⟩ := hv
  simp only at h1 h2 h3 h4 h5 h6 h7 h8 h9 h10
  have hy : y % 10 ^ 4 = y := Nat.mod_eq_of_lt (by omega)
  have hmo : mo % 10 ^ 2 = mo := Nat.mod_eq_of_lt (by omega)
  have hdd : dd ≤ 31 := le_trans h6 (by
    unfold daysInMonth
    split
    · split <;> omega
    · split <;> omega)
  have hdd' : dd % 10 ^ 2 = dd := Nat.mod_eq_of_lt (by omega)
  have hhh : hh % 10 ^ 2 = hh := Nat.mod_eq_of_lt (by omega)
  have hmi : mi % 10 ^ 2 = mi := Nat.mod_eq_of_lt (by omega)
  have hss : ss % 10 ^ 2 = ss := Nat.mod_eq_of_lt (by omega)
  have hus : us % 10 ^ 6 = us := Nat.mod_eq_of_lt (by omega)
  have hvalid : (⟨y, mo, dd, hh, mi, ss, us, none⟩ : DateTime).valid :=
    ⟨h1, h2, h3, h4, h5, h6, h7, h8, h9, h10, trivial⟩
  have hvalid' : (⟨y, mo, dd, hh, mi, ss, us, some (false, 0, 0)⟩ : DateTime).valid :=
    ⟨h1, h2, h3, h4, h5, h6, h7, h8, h9, h10, by constructor <;> omega⟩
  have hsuffix : "+00:00".toList = '+' :: '0' :: '0' :: ':' :: '0' :: '0' :: [] := rfl
  constructor
  · unfold fromisoformat isoformat
    by_cases h0 : us = 0
    · subst h0
      simp only [if_pos rfl, List.append_assoc, List.cons_append,
        List.nil_append, List.append_nil,
        readNatAux_padDigits, readNatAux_padDigits_nil,
        Nat.zero_mul, Nat.zero_add, hy, hmo, hdd', hhh, hmi, hss,
        Option.bind_eq_bind, Option.some_bind, expectChar_cons, parseFrac_nil, parseOffset_nil,
        List.isEmpty_nil, if_true, mkValidDateTime]
      rw [if_pos hvalid]
    · rw [if_neg h0]
      simp only [List.append_assoc, List.cons_append, List.nil_append,
        List.append_nil, readNatAux_padDigits, readNatAux_padDigits_nil,
        Nat.zero_mul, Nat.zero_add, hy, hmo, hdd', hhh, hmi, hss,
        Option.bind_eq_bind, Option.some_bind, expectChar_cons, parseFrac_dot, hus,
        parseOffset_nil, List.isEmpty_nil, if_true, mkValidDateTime]
      rw [if_pos hvalid]
  · unfold fromisoformat isoformat
    rw [hsuffix]
    by_cases h0 : us = 0
    · subst h0
      simp only [if_pos rfl, List.append_assoc, List.cons_append,
        List.nil_append, List.append_nil,
        readNatAux_padDigits, readNatAux_padDigits_nil,
        Nat.zero_mul, Nat.zero_add, hy, hmo, hdd', hhh, hmi, hss,
        Option.bind_eq_bind, Option.some_bind, expectChar_cons, parseFrac_plus, parseOffset_utc,
        List.isEmpty_nil, if_true, mkValidDateTime]
      rw [if_pos hvalid']
    · rw [if_neg h0]
      simp only [List.append_assoc, List.cons_append, List.nil_append,
        List.append_nil, readNatAux_padDigits, readNatAux_padDigits_nil,
        Nat.zero_mul, Nat.zero_add, hy, hmo, hdd', hhh, hmi, hss,
        Option.bind_eq_bind, Option.some_bind, expectChar_cons, parseFrac_dot, hus,
        parseOffset_utc, List.isEmpty_nil, if_true, mkValidDateTime]
      rw [if_pos hvalid']

/-! ### Eviction-order facts (claim C3) -/

set_option maxHeartbeats 1600000 in
/-- Lexicographic datetime comparison is asymmetric. -/
theorem DateTime.lt_asymm {a b : DateTime} (h : DateTime.lt a b = true) :
    DateTime.lt b a = false := by
  unfold DateTime.lt at h ⊢
  split_ifs at h ⊢ <;>
    simp only [decide_eq_true_eq, decide_eq_false_iff_not] at h ⊢ <;>
    omega

/-- Inserting an element not below any list element appends it. -/
theorem insortBy_append {α : Type} (lt : α → α → Bool) (x : α) :
    ∀ (l : List α), (∀ y ∈ l, lt x y = false) → insortBy lt x l = l ++ [x] := by
  intro l
  induction l with
  | nil => intro _; rfl
  | cons y ys ih =>
    intro h
    rw [insortBy, if_neg (by simp [h y (by simp)]), ih (fun z hz => h z (by simp [hz]))]
    rfl

/-- Sorting a list in which no later element is below an earlier one is the
identity (so Python's stable `sorted` leaves an already-ascending
conversation list unchanged). -/
theorem sortBy_of_pairwise {α : Type} (lt : α → α → Bool) :
    ∀ (l acc : List α), (∀ x ∈ l, ∀ y ∈ acc, lt x y = false) →
      l.Pairwise (fun a b => lt b a = false) →
      l.foldl (fun acc x => insortBy lt x acc) acc = acc ++ l := by
  intro l
  induction l with
  | nil => intro acc _ _; simp
  | cons x xs ih =>
    intro acc hacc hpw
    rw [List.foldl_cons, insortBy_append lt x acc (hacc x (by simp))]
    rw [List.pairwise_cons] at hpw
    rw [ih (acc ++ [x]) ?_ hpw.2]
    · simp
    · intro z hz y hy
      rcases List.mem_append.mp hy with hy | hy
      · exact hacc z (by simp [hz]) y hy
      · rw [List.mem_singleton.mp hy]
        exact hpw.1 z hz

/-- `sortBy` on an ascending-compatible list is the identity. -/
theorem sortBy_eq_self {α : Type} (lt : α → α → Bool) (l : List α)
    (h : l.Pairwise (fun a b => lt b a = false)) : sortBy lt l = l := by
  unfold sortBy
  simpa using sortBy_of_pairwise lt l [] (by simp) h

/-- Deleting the sole oldest key from a key-distinct map drops its head. -/
theorem filter_remove_head_key (k : String) (v : ConversationHistory)
    (l : List (String × ConversationHistory)) (h : ∀ p ∈ l, p.1 ≠ k) :
    ((k, v) :: l).filter (fun p => !([k].contains p.1)) = l := by
  have hhead : (!([k].contains (k, v).1)) = false := by simp
  rw [List.filter_cons, hhead]
  simp only [Bool.false_eq_true, if_false]
  apply List.filter_eq_self.mpr
  intro p hp
  simp [h p hp]

/-- `create_conversation` never changes the `enabled`/capacity settings. -/
theorem create_conversation_fields (m : HistoryManager)
    (cid : Option String) (meta : Option (List (String × JVal)))
    (fid : String) (now : DateTime) :
    ((m.create_conversation cid meta fid now).2).enabled = m.enabled ∧
    ((m.create_conversation cid meta fid now).2).max_conversations =
      m.max_conversations := by
  unfold HistoryManager.create_conversation HistoryManager.cleanup_old_conversations
  dsimp only
  constructor <;>
    (split
     · rfl
     · split <;> (split <;> rfl))

/-- A creation sequence never changes the `enabled`/capacity settings. -/
theorem createConversations_fields (inputs : List (String × DateTime)) :
    ∀ m : HistoryManager,
      (createConversations m inputs).enabled = m.enabled ∧
      (createConversations m inputs).max_conversations = m.max_conversations := by
  induction inputs with
  | nil => intro m; exact ⟨rfl, rfl⟩
  | cons x xs ih =>
    intro m
    have h1 := create_conversation_fields m (some x.1) none "" x.2
    have h2 := ih ((m.create_conversation (some x.1) none "" x.2).2)
    exact ⟨h2.1.trans h1.1, h2.2.trans h1.2⟩

/-- Splitting off the last creation. -/
theorem createConversations_append_singleton (m : HistoryManager)
    (xs : List (String × DateTime)) (x : String × DateTime) :
    createConversations m (xs ++ [x]) =
      ((createConversations m xs).create_conversation (some x.1) none "" x.2).2 := by
  simp [createConversations, List.foldl_append]

/-- One enabled creation under capacity appends the new entry, evicting
nothing. -/
theorem create_conversation_append (m : HistoryManager) (hme : m.enabled = true)
    (id : String) (hide : id.isEmpty = false) (now : DateTime)
    (hany : m.conversations.any (fun p => p.1 = id) = false)
    (hlen : m.conversations.length + 1 ≤ m.max_conversations) :
    ((m.create_conversation (some id) none "" now).2).conversations =
      m.conversations ++ [(id, ⟨id, now, now, [], []⟩)] := by
  unfold HistoryManager.create_conversation
  rw [hme]
  simp only [Bool.not_true, Bool.false_eq_true, if_false, optStrTruthy, hide,
    Bool.not_false, if_true, Option.getD_some, Option.getD_none]
  unfold dictInsert
  rw [hany]
  simp only [Bool.false_eq_true, if_false]
  unfold HistoryManager.cleanup_old_conversations
  dsimp only
  rw [if_pos (by
    rw [List.length_append, List.length_singleton]
    exact hlen)]

/-- One enabled creation at capacity appends the new entry and then evicts
the single oldest (= first, when the map is ascending and keys are distinct)
entry. -/
theorem create_conversation_evict (m : HistoryManager) (hme : m.enabled = true)
    (id : String) (hide : id.isEmpty = false) (now : DateTime)
    (hany : m.conversations.any (fun p => p.1 = id) = false)
    (hcap : m.conversations.length = m.max_conversations)
    (hpw : (m.conversations ++
        [(id, (⟨id, now, now, [], []⟩ : ConversationHistory))]).Pairwise
        (fun a b => DateTime.lt b.2.updated_at a.2.updated_at = false))
    (hnodup : ((m.conversations ++
        [(id, (⟨id, now, now, [], []⟩ : ConversationHistory))]).map Prod.fst).Nodup) :
    ((m.create_conversation (some id) none "" now).2).conversations =
      (m.conversations ++ [(id, (⟨id, now, now, [], []⟩ : ConversationHistory))]).tail := by
  unfold HistoryManager.create_conversation
  rw [hme]
  simp only [Bool.not_true, Bool.false_eq_true, if_false, optStrTruthy, hide,
    Bool.not_false, if_true, Option.getD_some, Option.getD_none]
  unfold dictInsert
  rw [hany]
  simp only [Bool.false_eq_true, if_false]
  unfold HistoryManager.cleanup_old_conversations
  dsimp only
  rw [if_neg (by
    rw [List.length_append, List.length_singleton]
    omega)]
  rw [@sortBy_eq_self (String × ConversationHistory)
    (fun a b => DateTime.lt a.2.updated_at b.2.updated_at) _ hpw]
  rw [List.length_append, List.length_singleton, hcap, Nat.add_sub_cancel_left]
  cases hc : m.conversations with
  | nil =>
    simp only [List.nil_append]
    have htake : List.take 1 [(id, (⟨id, now, now, [], []⟩ : ConversationHistory))] =
        [(id, ⟨id, now, now, [], []⟩)] := by simp
    rw [htake]
    simp only [List.map_cons, List.map_nil]
    exact filter_remove_head_key id _ [] (by simp)
  | cons hd tl =>
    simp only [List.cons_append]
    have htake : List.take 1 (hd :: (tl ++ [(id, (⟨id, now, now, [], []⟩ : ConversationHistory))])) =
        [hd] := by simp
    rw [htake]
    simp only [List.map_cons, List.map_nil, List.tail_cons]
    have hkeys2 : ∀ p ∈ tl ++ [(id, (⟨id, now, now, [], []⟩ : ConversationHistory))],
        p.1 ≠ hd.1 := by
      rw [hc] at hnodup
      simp only [List.cons_append, List.map_cons, List.nodup_cons] at hnodup
      intro p hp hcontra
      exact hnodup.1 (hcontra ▸ List.mem_map.mpr ⟨p, hp, rfl⟩)
    have hfil := filter_remove_head_key hd.1 hd.2
      (tl ++ [(id, ⟨id, now, now, [], []⟩)]) hkeys2
    rw [show ((hd.1, hd.2) : String × ConversationHistory) = hd from rfl] at hfil
    exact hfil

/-- Core of claim C3: creating conversations with distinct non-empty ids at
strictly increasing clock readings, starting from a fresh enabled manager of
capacity `max`, always leaves exactly the most recent `min n max` creations
tracked, in creation order (which is also ascending `updated_at` order). -/
theorem createConversations_state (max : Nat) :
    ∀ (inputs : List (String × DateTime)),
      (inputs.map Prod.fst).Nodup →
      (∀ p ∈ inputs, p.1 ≠ "") →
      inputs.Pairwise (fun p q => DateTime.lt p.2 q.2 = true) →
      (createConversations (mkHistoryManager true none max false false false [])
          inputs).conversations =
        (inputs.map convEntry).drop (inputs.length - min inputs.length max) := by
  intro inputs
  induction inputs using List.reverseRecOn with
  | nil => intro _ _ _; simp [createConversations, mkHistoryManager, optStrTruthy]
  | append_singleton xs x ih =>
    intro hnodup hne htimes
    rw [List.map_append, List.nodup_append] at hnodup
    rw [List.pairwise_append] at htimes
    have hS := ih hnodup.1 (fun p hp => hne p (by simp [hp])) htimes.1
    have hfields := createConversations_fields xs
      (mkHistoryManager true none max false false false [])
    set S := createConversations
      (mkHistoryManager true none max false false false []) xs with hSdef
    have henabled : S.enabled = true := hfields.1
    have hmax : S.max_conversations = max := hfields.2
    rw [createConversations_append_singleton]
    have hx1 : x.1 ≠ "" := hne x (by simp)
    have hx1e : x.1.isEmpty = false := by
      rcases hb : x.1.isEmpty with _ | _
      · rfl
      · exact absurd ((String.isEmpty_iff x.1).mp hb) hx1
    have hkeys : ∀ p ∈ S.conversations, p.1 ≠ x.1 := by
      intro p hp hcontra
      rw [hS] at hp
      have hmem : p ∈ xs.map convEntry := List.mem_of_mem_drop hp
      obtain ⟨q, hq, rfl⟩ := List.mem_map.mp hmem
      have hq1 : q.1 ∈ xs.map Prod.fst := List.mem_map.mpr ⟨q, hq, rfl⟩
      refine hnodup.2.2 hq1 ?_
      simp only [convEntry] at hcontra
      simp [hcontra]
    have hany : S.conversations.any (fun p => p.1 = x.1) = false := by
      rw [List.any_eq_false]
      intro p hp
      simp [hkeys p hp]
    have hentry : ((x.1, ⟨x.1, x.2, x.2, [], []⟩) : String × ConversationHistory)
        = convEntry x := rfl
    rcases Nat.lt_or_ge xs.length max with hcase | hcase
    · -- under capacity: no eviction
      rw [create_conversation_append S henabled x.1 hx1e x.2 hany (by
        rw [hS, List.length_drop, List.length_map, hmax]
        omega)]
      rw [hS, hentry]
      simp only [List.map_append, List.map_cons, List.map_nil]
      have h1 : xs.length - min xs.length max = 0 := by omega
      have h2 : (xs ++ [x]).length - min (xs ++ [x]).length max = 0 := by
        rw [List.length_append]
        simp only [List.length_singleton]
        omega
      rw [h1, h2, List.drop_zero, List.drop_zero]
    · -- at capacity: the single oldest store is evicted
      have hSlen : S.conversations.length = max := by
        rw [hS, List.length_drop, List.length_map]
        omega
      have hpw : ((xs ++ [x]).map convEntry).Pairwise
          (fun a b => DateTime.lt a.2.updated_at b.2.updated_at = true) := by
        rw [List.pairwise_map]
        refine List.pairwise_append.mpr ⟨htimes.1, by simp, ?_⟩
        intro a ha b hb
        rw [List.mem_singleton.mp hb]
        exact htimes.2.2 a ha x (by simp)
      have hsubl : (S.conversations ++ [(x.1, (⟨x.1, x.2, x.2, [], []⟩ : ConversationHistory))]).Sublist
          ((xs ++ [x]).map convEntry) := by
        rw [hS, hentry]
        simp only [List.map_append, List.map_cons, List.map_nil]
        exact (List.drop_sublist _ _).append (List.Sublist.refl _)
      have hLpw : (S.conversations ++ [(x.1, (⟨x.1, x.2, x.2, [], []⟩ : ConversationHistory))]).Pairwise
          (fun a b => DateTime.lt b.2.updated_at a.2.updated_at = false) :=
        (hpw.sublist hsubl).imp (fun h => DateTime.lt_asymm h)
      have hkeysnodup : ((S.conversations ++
          [(x.1, (⟨x.1, x.2, x.2, [], []⟩ : ConversationHistory))]).map Prod.fst).Nodup := by
        refine List.Nodup.sublist (hsubl.map Prod.fst) ?_
        have hmm : (((xs ++ [x]).map convEntry).map Prod.fst) =
            (xs ++ [x]).map Prod.fst := by
          rw [List.map_map]
          rfl
        rw [hmm, List.map_append, List.nodup_append]
        exact ⟨hnodup.1, hnodup.2.1, hnodup.2.2⟩
      rw [create_conversation_evict S henabled x.1 hx1e x.2 hany
        (by rw [hSlen, hmax]) hLpw hkeysnodup]
      have hmin : min (xs ++ [x]).length max = max := by
        rw [List.length_append]
        simp only [List.length_singleton]
        omega
      rw [hmin, hS]
      have hmin2 : min xs.length max = max := by omega
      rw [hmin2]
      simp only [List.map_append, List.map_cons, List.map_nil]
      rcases Nat.eq_zero_or_pos max with hmax0 | hmaxpos
      · -- capacity 0: everything is evicted again immediately
        subst hmax0
        have hnil : (xs.map convEntry).drop (xs.length - 0) = [] := by
          rw [List.drop_eq_nil_of_le]
          rw [List.length_map]
          omega
        rw [hnil, List.nil_append, List.tail_cons]
        rw [List.drop_eq_nil_of_le]
        rw [List.length_append, List.length_map, List.length_singleton,
          List.length_append, List.length_singleton]
        omega
      · -- positive capacity: the oldest tracked store is dropped
        have hdrople : (xs ++ [x]).length - max ≤ (xs.map convEntry).length := by
          rw [List.length_append, List.length_map]
          simp only [List.length_singleton]
          omega
        rw [List.drop_append_of_le_length hdrople]
        have harith : (xs ++ [x]).length - max = (xs.length - max) + 1 := by
          rw [List.length_append]
          simp only [List.length_singleton]
          omega
        rw [harith]
        obtain ⟨hd, tl, hdec⟩ : ∃ hd tl,
            (xs.map convEntry).drop (xs.length - max) = hd :: tl := by
          cases hdc : (xs.map convEntry).drop (xs.length - max) with
          | nil =>
            have hlendec := congrArg List.length hdc
            rw [List.length_drop, List.length_map] at hlendec
            simp at hlendec
            omega
          | cons a l => exact ⟨a, l, rfl⟩
        rw [hdec]
        simp only [List.cons_append, List.tail_cons]
        have htl : tl = (xs.map convEntry).drop (xs.length - max + 1) := by
          have hts : (hd :: tl).tail = tl := rfl
          rw [← hts, ← hdec, List.tail_drop]
        rw [htl]
        rfl

/-- On messages whose roles are all context-eligible, the format loop is a
plain reshape. -/
theorem formatMessages_eq_map (l : List Message)
    (h : ∀ msg ∈ l, msg.role = "user" ∨ msg.role = "assistant" ∨
      msg.role = "system") :
    formatMessages l = l.map (fun msg => ⟨msg.role, msg.content⟩) := by
  induction l with
  | nil => rfl
  | cons msg rest ih =>
    rw [formatMessages, if_pos (h msg (by simp))]
    rw [ih (fun m hm => h m (by simp [hm]))]
    rfl

/-! ### Claim theorems: streaming (C1, C4, C5) -/

/-- Claim C1 (amended): for every line source consumed to the end by
`Stream`/`AsyncStream` iteration without an exception propagating — whether
iteration ends at the `[DONE]` sentinel or at underlying-source exhaustion —
a registered `on_complete` callback fires exactly once with the accumulated
text when the accumulated text is non-empty, and fires zero times when the
accumulated text is empty. -/
theorem C1_onComplete_fires_once_iff_nonempty
    (jsonLoads : List Char → Option JVal) (cb : Callbacks)
    (lines : List (List Char))
    (hs : (runStream jsonLoads cb lines).aborted = false)
    (ha : (runAsyncStream jsonLoads cb lines).aborted = false) :
    ((runStream jsonLoads cb lines).events.filter StreamEvent.isComplete =
      if cb.onComplete = true ∧ (runStream jsonLoads cb lines).accumulated ≠ [] then
        [StreamEvent.completeCb (runStream jsonLoads cb lines).accumulated]
      else []) ∧
    ((runAsyncStream jsonLoads cb lines).events.filter StreamEvent.isComplete =
      if cb.onComplete = true ∧ (runAsyncStream jsonLoads cb lines).accumulated ≠ [] then
        [StreamEvent.completeCb (runAsyncStream jsonLoads cb lines).accumulated]
      else []) := by
  have key : ∀ acc : List Char, completionEvents cb acc =
      if cb.onComplete = true ∧ acc ≠ [] then [StreamEvent.completeCb acc] else [] := by
    intro acc
    unfold completionEvents
    rcases h : cb.onComplete with _ | _ <;>
      rcases hacc : acc.isEmpty with _ | _ <;>
        simp_all [List.isEmpty_iff]
  constructor
  · rw [← key]
    exact runStreamAux_filter_isComplete jsonLoads cb lines [] hs
  · rw [← key]
    unfold runAsyncStream
    rw [runAsyncStreamAux_eq]
    unfold runAsyncStream at ha
    rw [runAsyncStreamAux_eq] at ha
    exact runStreamAux_filter_isComplete jsonLoads cb lines [] ha

/-- Witness for C1: a concrete run (one valid chunk then `[DONE]`, with
`on_complete` registered) that satisfies the no-abort hypotheses and fires
the completion callback exactly once with the accumulated `"hi"`. -/
theorem C1_onComplete_fires_once_iff_nonempty_witness :
    (runStream demoLoads ⟨false, false, true⟩
        ["data: x".toList, "data: [DONE]".toList]).events.filter
        StreamEvent.isComplete = [StreamEvent.completeCb "hi".toList] :=
  ((C1_onComplete_fires_once_iff_nonempty demoLoads ⟨false, false, true⟩
      ["data: x".toList, "data: [DONE]".toList] rfl rfl).1).trans (by rfl)

/-- Counterexample to C1 as stated: a line source consumed to the very end
(`[DONE]` sentinel reached, no exception) with `on_complete` registered, on
which the completion callback fires zero times — because nothing was
accumulated and the code guards the firing with
`if self.on_complete and self._accumulated_content`. -/
theorem C1_counterexample_zero_fires :
    (runStream demoLoads ⟨false, false, true⟩ ["data: [DONE]".toList]).aborted
        = false ∧
    (runAsyncStream demoLoads ⟨false, false, true⟩ ["data: [DONE]".toList]).aborted
        = false ∧
    (runStream demoLoads ⟨false, false, true⟩
        ["data: [DONE]".toList]).events.filter StreamEvent.isComplete = [] ∧
    (runAsyncStream demoLoads ⟨false, false, true⟩
        ["data: [DONE]".toList]).events.filter StreamEvent.isComplete = [] :=
  ⟨rfl, rfl, rfl, rfl⟩

/-- Claim C4: for every sequence of valid SSE chunk lines followed by the
`[DONE]` sentinel, the accumulated text returned by `collect()` equals the
in-order concatenation of the `choices[0].delta.content` string values across
the chunks (null/absent contributing nothing), `collect()` returns exactly
those chunks, and `print_stream()` returns the same text. -/
theorem C4_collect_eq_concat_eq_print_stream
    (jsonLoads : List Char → Option JVal) (cb : Callbacks)
    (lines : List (List Char)) (cs : List ChatCompletionChunk) (dl : List Char)
    (hv : List.Forall₂ (ValidChunkLine jsonLoads) lines cs) (hd : DoneLine dl) :
    (collect (runStream jsonLoads cb (lines ++ [dl]))).1 =
      (cs.map specDeltaContent).flatten ∧
    (collect (runStream jsonLoads cb (lines ++ [dl]))).2 = cs ∧
    print_stream jsonLoads cb (lines ++ [dl]) =
      .ok ((cs.map specDeltaContent).flatten) ∧
    (runStream jsonLoads cb (lines ++ [dl])).aborted = false := by
  obtain ⟨h1, h2, h3⟩ :=
    runStreamAux_valid_then_done jsonLoads cb lines cs dl [] hv hd
  refine ⟨by simpa using h2, by simpa using h1, ?_, h3⟩
  unfold print_stream
  rw [show (runStream jsonLoads cb (lines ++ [dl])).emitted = cs from h1]
  exact printStreamAcc_of_extract_ok cs (forall_extract_ok_of_forall₂ jsonLoads hv)

/-- Witness for C4: two concrete valid chunk lines then the sentinel; the
collected text, the spec-side concatenation and the `print_stream` text all
equal `"hihi"`. -/
theorem C4_collect_eq_concat_eq_print_stream_witness :
    (collect (runStream demoLoads ⟨true, true, true⟩
        ["data: x".toList, "data: x".toList, "data: [DONE]".toList])).1 =
      "hihi".toList ∧
    print_stream demoLoads ⟨true, true, true⟩
        ["data: x".toList, "data: x".toList, "data: [DONE]".toList] =
      .ok "hihi".toList := by
  have h := C4_collect_eq_concat_eq_print_stream demoLoads ⟨true, true, true⟩
    ["data: x".toList, "data: x".toList] [demoChunk, demoChunk]
    "data: [DONE]".toList
    (by
      refine List.Forall₂.cons ?_ (List.Forall₂.cons ?_ List.Forall₂.nil) <;>
        exact ⟨by decide, by decide, demoChunkJson, rfl, rfl, "hi".toList, rfl⟩)
    ⟨by decide, by decide⟩
  exact ⟨h.1.trans (by rfl), h.2.2.1.trans (by rfl)⟩

/-- Claim C5 (amended): inserting a `"data: "`-prefixed line whose payload is
neither decodable JSON nor the `[DONE]` sentinel anywhere into a line
sequence leaves the entire run — emitted chunks, accumulated text, callback
events, abort status — unchanged: the malformed line is skipped, no error is
raised, and no callback fires for it. -/
theorem C5_malformed_line_invisible
    (jsonLoads : List Char → Option JVal) (cb : Callbacks)
    (ls₁ ls₂ : List (List Char)) (mal : List Char)
    (hp : "data: ".toList.isPrefixOf mal = true)
    (hj : jsonLoads (mal.drop 6) = none)
    (hnd : mal.drop 6 ≠ "[DONE]".toList) :
    runStream jsonLoads cb (ls₁ ++ mal :: ls₂) =
      runStream jsonLoads cb (ls₁ ++ ls₂) :=
  runStreamAux_skip_malformed jsonLoads cb mal hp hj hnd ls₁ ls₂ []

/-- Witness for C5 (amended): inserting the undecodable, non-sentinel payload
`"oops"` between two valid chunk lines changes nothing about the run. -/
theorem C5_malformed_line_invisible_witness :
    runStream demoLoads ⟨true, true, true⟩
        (["data: x".toList] ++ "data: oops".toList ::
          ["data: x".toList, "data: [DONE]".toList]) =
      runStream demoLoads ⟨true, true, true⟩
        (["data: x".toList] ++ ["data: x".toList, "data: [DONE]".toList]) :=
  C5_malformed_line_invisible demoLoads ⟨true, true, true⟩
    ["data: x".toList] ["data: x".toList, "data: [DONE]".toList]
    "data: oops".toList (by decide) rfl (by decide)

/-- Counterexample to C5 as stated: the payload `"[DONE]"` is itself not
decodable JSON (`json.loads("[DONE]")` raises), yet inserting the line
`"data: [DONE]"` between two valid chunk lines does not leave the run
unchanged — it truncates the stream, so the accumulated text differs
(`"hi"` with the inserted line, `"hihi"` without). -/
theorem C5_counterexample_done_payload :
    demoLoads ("data: [DONE]".toList.drop 6) = none ∧
    "data: ".toList.isPrefixOf "data: [DONE]".toList = true ∧
    (runStream demoLoads ⟨true, true, true⟩
        (["data: x".toList] ++ "data: [DONE]".toList ::
          ["data: x".toList, "data: [DONE]".toList])).accumulated =
      "hi".toList ∧
    (runStream demoLoads ⟨true, true, true⟩
        (["data: x".toList] ++ ["data: x".toList, "data: [DONE]".toList])).accumulated =
      "hihi".toList :=
  ⟨rfl, by decide, by decide, by decide⟩

/-! ### Claim theorems: history and client (C2, C3, C6, C7, C8, C9, C10) -/

/-- Claim C2 (amended): for every `HistoryManager` constructed with
`enabled=False`: `create_conversation` returns an ephemeral (empty,
unregistered) store and leaves the manager unchanged, `get_conversation`
always returns `None`, `list_conversations` always returns the empty list,
and `create_server_chat` never adds an entry to the conversation map; but
`sync_with_server` is a guaranteed no-op on the map only when server sync is
not enabled — with `server_sync=True` and a chats-capable client it can add
entries even while disabled. -/
theorem C2_disabled_manager_no_tracking
    (m : HistoryManager) (hdis : m.enabled = false) :
    (∀ cid meta fid now, (m.create_conversation cid meta fid now).2 = m) ∧
    (∀ cid meta fid now, ((m.create_conversation cid meta fid now).1).messages = []) ∧
    (∀ cid, m.get_conversation cid = none) ∧
    m.list_conversations = [] ∧
    (∀ cid mod msg res now, (m.create_server_chat cid mod msg res now).2 = m) ∧
    (m.server_sync = false →
      ∀ page now, (m.sync_with_server page now).2 = m) := by
  refine ⟨?_, ?_, ?_, ?_, ?_, ?_⟩
  · intro cid meta fid now
    unfold HistoryManager.create_conversation
    rw [hdis]
    rfl
  · intro cid meta fid now
    unfold HistoryManager.create_conversation
    rw [hdis]
    rfl
  · intro cid
    unfold HistoryManager.get_conversation
    rw [hdis]
    rfl
  · unfold HistoryManager.list_conversations
    rw [hdis]
    rfl
  · intro cid mod msg res now
    unfold HistoryManager.create_server_chat
    rw [hdis]
    split
    · rfl
    · split
      · rfl
      · split
        · rfl
        · split <;> rfl
  · intro hsync page now
    unfold HistoryManager.sync_with_server
    rw [hsync]
    rfl

/-- Witness for C2 (amended): the concrete disabled manager without a client
behaves as stated on concrete inputs. -/
theorem C2_disabled_manager_no_tracking_witness :
    (demoDisabledManager.create_conversation (some "c") none "fresh" demoDT).2 =
      demoDisabledManager ∧
    demoDisabledManager.get_conversation "c" = none ∧
    demoDisabledManager.list_conversations = [] ∧
    (demoDisabledManager.sync_with_server demoServerPage demoDT).2 =
      demoDisabledManager := by
  have h := C2_disabled_manager_no_tracking demoDisabledManager rfl
  exact ⟨h.1 (some "c") none "fresh" demoDT, h.2.2.1 "c", h.2.2.2.1,
    h.2.2.2.2.2 rfl demoServerPage demoDT⟩

/-- Counterexample to C2 as stated: a manager constructed with
`enabled=False` but `server_sync=True` and a chats-capable client — on a
one-record server listing, `sync_with_server` adds an entry to the
conversation map (the claim says no operation ever does). -/
theorem C2_counterexample_sync_adds_entry :
    demoDisabledSyncManager.enabled = false ∧
    ((demoDisabledSyncManager.sync_with_server demoServerPage
        demoDT).2).conversations.length = 1 :=
  ⟨rfl, rfl⟩

/-- Claim C3: in an enabled manager of capacity `max`, after
`max + k` creations (`k > 0`, distinct non-empty ids, strictly increasing
`updated_at` clock readings, no deletions), `list_conversations()` never
exceeded `max` at any point, and the retained conversations are exactly the
`max` most recent creations — the ones with the greatest `updated_at`; the
oldest were evicted first. -/
theorem C3_eviction_bound (max k : Nat) (inputs : List (String × DateTime))
    (hk : 0 < k) (hlen : inputs.length = max + k)
    (hids : (inputs.map Prod.fst).Nodup)
    (hne : ∀ p ∈ inputs, p.1 ≠ "")
    (htimes : inputs.Pairwise (fun p q => DateTime.lt p.2 q.2 = true)) :
    (∀ pre, pre <+: inputs →
      ((createConversations (mkHistoryManager true none max false false false [])
          pre).list_conversations).length ≤ max) ∧
    (createConversations (mkHistoryManager true none max false false false [])
        inputs).list_conversations = (inputs.map Prod.fst).drop k ∧
    (createConversations (mkHistoryManager true none max false false false [])
        inputs).conversations = (inputs.map convEntry).drop k := by
  have hfields := createConversations_fields inputs
    (mkHistoryManager true none max false false false [])
  have hstate := createConversations_state max inputs hids hne htimes
  have hdrop : inputs.length - min inputs.length max = k := by omega
  rw [hdrop] at hstate
  refine ⟨?_, ?_, hstate⟩
  · intro pre hpre
    have hsubl : pre.Sublist inputs := hpre.sublist
    have hids' : (pre.map Prod.fst).Nodup :=
      List.Nodup.sublist (hsubl.map Prod.fst) hids
    have hne' : ∀ p ∈ pre, p.1 ≠ "" := fun p hp => hne p (hsubl.mem hp)
    have htimes' : pre.Pairwise (fun p q => DateTime.lt p.2 q.2 = true) :=
      htimes.sublist hsubl
    have hst := createConversations_state max pre hids' hne' htimes'
    have hf := createConversations_fields pre
      (mkHistoryManager true none max false false false [])
    have hlist : (createConversations
        (mkHistoryManager true none max false false false []) pre).list_conversations =
        ((createConversations
          (mkHistoryManager true none max false false false [])
            pre).conversations).map Prod.fst := by
      unfold HistoryManager.list_conversations
      rw [hf.1]
      rfl
    rw [hlist, hst]
    rw [List.length_map, List.length_drop, List.length_map]
    omega
  · have hlist : (createConversations
        (mkHistoryManager true none max false false false []) inputs).list_conversations =
        ((createConversations
          (mkHistoryManager true none max false false false [])
            inputs).conversations).map Prod.fst := by
      unfold HistoryManager.list_conversations
      rw [hfields.1]
      rfl
    rw [hlist, hstate, ← List.map_drop, ← List.map_drop, List.map_map]
    rfl

/-- Witness for C3: capacity 2, three creations `a, b, c` at increasing
times — only `b` and `c` remain, in order. -/
theorem C3_eviction_bound_witness :
    (createConversations (mkHistoryManager true none 2 false false false [])
        [("a", ⟨2024, 1, 1, 0, 0, 0, 0, none⟩),
         ("b", ⟨2024, 1, 2, 0, 0, 0, 0, none⟩),
         ("c", ⟨2024, 1, 3, 0, 0, 0, 0, none⟩)]).list_conversations =
      ["b", "c"] := by
  have h := C3_eviction_bound 2 1
    [("a", ⟨2024, 1, 1, 0, 0, 0, 0, none⟩),
     ("b", ⟨2024, 1, 2, 0, 0, 0, 0, none⟩),
     ("c", ⟨2024, 1, 3, 0, 0, 0, 0, none⟩)]
    (by decide) rfl (by decide) (by decide) (by decide)
  exact h.2.1.trans rfl

/-- Claim C6: for a tracked conversation whose messages are all
user/assistant turns and `0 < k <` message count,
`get_conversation_context(conversation_id, max_messages=k)` returns exactly
the last `k` messages reshaped to `{role, content}`, in order. -/
theorem C6_context_returns_last_k (m : HistoryManager) (cid : String)
    (conv : ConversationHistory) (k : Nat)
    (hcid : cid ≠ "")
    (hconv : m.get_conversation cid = some conv)
    (hroles : ∀ msg ∈ conv.messages,
      msg.role = "user" ∨ msg.role = "assistant")
    (hk : 0 < k) (hklen : k < conv.messages.length) :
    get_conversation_context m (some cid) none (some k) =
      .ok ((conv.messages.drop (conv.messages.length - k)).map
        (fun msg => ⟨msg.role, msg.content⟩)) := by
  have hcide : cid.isEmpty = false := by
    rcases hb : cid.isEmpty with _ | _
    · rfl
    · exact absurd ((String.isEmpty_iff cid).mp hb) hcid
  unfold get_conversation_context
  simp only [optStrTruthy, hcide, Bool.not_false, if_true, Option.getD_some]
  rw [hconv]
  unfold ConversationHistory.get_messages
  simp only [optStrTruthy, Bool.false_eq_true, if_false]
  simp only [truncateMessages]
  rw [if_pos ⟨by omega, hklen⟩]
  rw [formatMessages_eq_map _ (fun msg hm => by
    rcases hroles msg (List.mem_of_mem_drop hm) with h | h
    · exact Or.inl h
    · exact Or.inr (Or.inl h))]

/-- Witness for C6: the spec's literal example — a store holding
`[u1,a1,u2,a2,u3,a3]` with `max_messages=4` yields `[u2,a2,u3,a3]`. -/
theorem C6_context_returns_last_k_witness :
    get_conversation_context demoManager (some "conv1") none (some 4) =
      .ok [⟨"user", "u2"⟩, ⟨"assistant", "a2"⟩, ⟨"user", "u3"⟩,
        ⟨"assistant", "a3"⟩] := by
  have h := C6_context_returns_last_k demoManager "conv1" demoConv 4
    (by decide) rfl (by decide) (by decide) (by decide)
  exact h.trans rfl

/-- Claim C7: when the underlying completion call fails, `send_message` on a
tracked conversation propagates the error and changes nothing — no user or
assistant turn is written, the message count is unchanged (the whole client
state is returned exactly as it was). -/
theorem C7_send_message_failure_no_write (st : TelaState) (cid : String)
    (conv : ConversationHistory) (message : String) (maxH : Option Nat)
    (freshId : String) (now : DateTime) (err : String)
    (completion : List CtxMsg → Except String CompletionResponse)
    (ts₁ : String) (now₁ : DateTime) (ts₂ : String) (now₂ : DateTime)
    (hcid : cid ≠ "")
    (hconv : st.history.get_conversation cid = some conv)
    (hfail : ∀ ms, completion ms = .error err) :
    send_message st message (some cid) maxH freshId now completion
      ts₁ now₁ ts₂ now₂ = (.error err, st) := by
  have hcide : cid.isEmpty = false := by
    rcases hb : cid.isEmpty with _ | _
    · rfl
    · exact absurd ((String.isEmpty_iff cid).mp hb) hcid
  unfold send_message
  simp only [optStrTruthy, hcide, Bool.not_false, if_true, Option.getD_some]
  rw [hconv]
  unfold get_conversation_context
  simp only [optStrTruthy, hcide, Bool.not_false, if_true, Option.getD_some]
  rw [hconv]
  simp only [hfail]

/-- Witness for C7: a concrete failing completion against the demo store
leaves the client state untouched and surfaces the error. -/
theorem C7_send_message_failure_no_write_witness :
    send_message ⟨demoManager, true⟩ "hello" (some "conv1") none "fresh"
      demoDT (fun _ => .error "boom") "t1" demoDT "t2" demoDT2 =
      (.error "boom", ⟨demoManager, true⟩) :=
  C7_send_message_failure_no_write ⟨demoManager, true⟩ "conv1" demoConv
    "hello" none "fresh" demoDT "boom" (fun _ => .error "boom")
    "t1" demoDT "t2" demoDT2 (by decide) rfl (fun _ => rfl)

/-- Claim C8: `from_dict(to_dict(h))` succeeds and reproduces `h` exactly
(id, message sequence with roles/contents/timestamps in order, metadata, and
both timestamps); and `from_dict` also accepts the same dict with a trailing
`Z` on the `created_at`/`updated_at` strings, still preserving id, messages
and metadata (the parsed timestamps then carry the UTC offset). -/
theorem C8_roundtrip_serialization (h : ConversationHistory)
    (hv1 : h.created_at.valid) (hv2 : h.updated_at.valid)
    (hz1 : h.created_at.tzOffset = none) (hz2 : h.updated_at.tzOffset = none) :
    ConversationHistory.from_dict h.to_dict = some h ∧
    ConversationHistory.from_dict
        { h.to_dict with
          created_at := .str (isoformat h.created_at ++ ['Z']),
          updated_at := .str (isoformat h.updated_at ++ ['Z']) } =
      some ⟨h.id, { h.created_at with tzOffset := some (false, 0, 0) },
        { h.updated_at with tzOffset := some (false, 0, 0) },
        h.messages, h.metadata⟩ := by
  have hc := fromisoformat_isoformat h.created_at hv1 hz1
  have hu := fromisoformat_isoformat h.updated_at hv2 hz2
  constructor
  · unfold ConversationHistory.to_dict ConversationHistory.from_dict parseTimeVal
    dsimp only
    rw [replaceZ_of_not_mem _ (not_Z_mem_isoformat h.created_at hz1),
      replaceZ_of_not_mem _ (not_Z_mem_isoformat h.updated_at hz2),
      hc.1, hu.1]
    rfl
  · unfold ConversationHistory.to_dict ConversationHistory.from_dict parseTimeVal
    dsimp only
    rw [replaceZ_append, replaceZ_append,
      replaceZ_of_not_mem _ (not_Z_mem_isoformat h.created_at hz1),
      replaceZ_of_not_mem _ (not_Z_mem_isoformat h.updated_at hz2)]
    rw [show replaceZ ['Z'] = "+00:00".toList from rfl]
    rw [hc.2, hu.2]
    rfl

/-- Witness for C8: the demo store round-trips exactly. -/
theorem C8_roundtrip_serialization_witness :
    ConversationHistory.from_dict demoConv.to_dict = some demoConv :=
  (C8_roundtrip_serialization demoConv (by decide) (by decide) rfl rfl).1

/-- Claim C9 (code bug): `AsyncTela.__init__` accepts an empty-string api
key (its check is only `if api_key is None:`), while `Tela.__init__` rejects
it — so async construction with `api_key=""` does not fail fast as the spec
requires. -/
theorem C9_async_accepts_empty_api_key :
    asyncTelaInit (some "") (some "org") (some "proj") none none none =
      .ok ⟨"", "org", "proj"⟩ ∧
    telaInit (some "") (some "org") (some "proj") none none none =
      .error "api_key" :=
  ⟨rfl, rfl⟩

/-- Claim C10: `max_messages=0` is falsy, so a zero limit applies no
trimming at all — the full role-filtered message list is returned, the same
as passing no limit. -/
theorem C10_zero_limit_is_no_limit (m : HistoryManager) (cid : String)
    (conv : ConversationHistory)
    (hcid : cid ≠ "")
    (hconv : m.get_conversation cid = some conv) :
    get_conversation_context m (some cid) none (some 0) =
      .ok (formatMessages conv.messages) ∧
    get_conversation_context m (some cid) none (some 0) =
      get_conversation_context m (some cid) none none := by
  have hcide : cid.isEmpty = false := by
    rcases hb : cid.isEmpty with _ | _
    · rfl
    · exact absurd ((String.isEmpty_iff cid).mp hb) hcid
  constructor <;>
    (unfold get_conversation_context
     simp only [optStrTruthy, hcide, Bool.not_false, if_true, Option.getD_some]
     rw [hconv]
     unfold ConversationHistory.get_messages
     simp only [optStrTruthy, Bool.false_eq_true, if_false]
     simp [truncateMessages])

/-- Witness for C10: on the demo store, a zero limit returns all six
messages reshaped. -/
theorem C10_zero_limit_is_no_limit_witness :
    get_conversation_context demoManager (some "conv1") none (some 0) =
      .ok [⟨"user", "u1"⟩, ⟨"assistant", "a1"⟩, ⟨"user", "u2"⟩,
        ⟨"assistant", "a2"⟩, ⟨"user", "u3"⟩, ⟨"assistant", "a3"⟩] :=
  ((C10_zero_limit_is_no_limit demoManager "conv1" demoConv (by decide)
    rfl).1).trans rfl

end TelaClient
